import Mathlib

/-
Verification of the reactive-signal core (signal module: `RefState`,
`ComputedState`, `EffectState`, the scheduler `updateStates`, and the
`collect` scoped-construction API).

The module's state is shallowly embedded: the process-wide globals
(`currentCapture`, `dirtyStates`, `currentUpdate`, `recursive`, the id
counters, and the three `collect` registration lists) together with the
node objects form an explicit `Engine` record.  Node objects live in
total maps from their numeric ids; ids never handed out by the
constructors simply hold inert default records.  JavaScript `Set`s are
modelled as insertion-ordered duplicate-free lists (`addSet` / `delSet`),
matching `Set.add` / `Set.delete` / iteration order.  Values are `Nat`,
with JavaScript `===` modelled as equality on `Nat`.

User-supplied function bodies (the arguments of `computed`, `effect`,
`ref`, `collect`) are deeply embedded as a small program type `Prog`
whose interpreter `evalProg` performs exactly the side effects the
source makes available to user code: reading a signal (which registers
in the current `Capture`), writing a leaf signal, constructing nodes,
nested `collect`, throwing, and emitting an observation (standing for
e.g. `console.log` inside an effect).  Cleanup callbacks returned by an
effect body are modelled as opaque nonzero tokens (the body's return
value; `0` stands for `undefined`); invoking a cleanup is recorded as a
`cleanup` event in the trace, mirroring `typeof this._clear ===
"function" && this._clear()`.
-/

namespace LySignal

/-- Values flowing through the signal graph; JavaScript `===` on them is
modelled as equality on `Nat`. -/
abbrev Val := Nat

/-- Identity of a readable node (`RefState | ComputedState`), the element
type of `Capture._getters`. -/
inductive GetterId where
  | ref  (i : Nat)
  | comp (i : Nat)
deriving DecidableEq, Repr

/-- Identity of a listening node (`ComputedState | EffectState`), the element
type of the `_listeners` sets. -/
inductive ListenerId where
  | comp (i : Nat)
  | eff  (i : Nat)
deriving DecidableEq, Repr

/-- The global `recursive` flag: `false | "computed" | "effect"`. -/
inductive Mode where
  | off
  | computedM
  | effectM
deriving DecidableEq, Repr

/-- Constructor names passed to `assertRecursive`. -/
inductive Kind where
  | refK
  | computedK
  | effectK
deriving DecidableEq, Repr

/-- Exceptions: the `TypeError` thrown by `assertRecursive` (carrying the
constructor name and the active mode) and an arbitrary exception thrown by
user code. -/
inductive Err where
  | typeError (name : Kind) (m : Mode)
  | userError
deriving DecidableEq, Repr

/-- Trace events recording the observable actions of a run: leaf commits
(`RefState._update`), derived recomputes (`ComputedState._update` with its
changed/unchanged result), cleanup invocations, the unlink / body-rerun steps
of `EffectState._update`, and user-visible observations made by a body. -/
inductive Event where
  | commitRef (i : Nat) (changed : Bool)
  | compUpd (i : Nat) (changed : Bool)
  | cleanup (tok : Val)
  | effUnlink (i : Nat)
  | effRun (i : Nat)
  | obs (v : Val)
deriving DecidableEq, Repr

/-- JS `Set.add`: append if absent (insertion-ordered set). -/
def addSet {α : Type} [DecidableEq α] (x : α) (l : List α) : List α :=
  if x ∈ l then l else l ++ [x]

/-- JS `Set.delete`: remove the element, keeping the order of the rest. -/
def delSet {α : Type} [DecidableEq α] (x : α) (l : List α) : List α :=
  l.filter (fun y => y ≠ x)

/-- `Capture`: the per-evaluation record of reads and writes. -/
structure Capture where
  getters : List GetterId
  setters : List Nat
deriving DecidableEq, Repr

/-- `new Capture()`. -/
def Capture.empty : Capture := ⟨[], []⟩

/-- Deep embedding of user-supplied function bodies.  `iteP` branches on the
scrutinee being nonzero; `app1` applies a pure function to a result; `emit`
records its result as an observation event; `collectP` is a nested call of
the `collect` API whose tuple result is discarded; the three constructor
forms return the id of the constructed node. -/
inductive Prog where
  | ret (v : Val)
  | seq (a b : Prog)
  | readRef (i : Nat)
  | readComp (i : Nat)
  | writeRef (i : Nat) (rhs : Prog)
  | iteP (c t e : Prog)
  | app1 (f : Val → Val) (a : Prog)
  | emit (a : Prog)
  | throwErr
  | newRef (initArg : Prog)
  | newComp (body : Prog)
  | newEff (body : Prog)
  | collectP (body : Prog)

/-- `RefState`: `_old`, `_state` (committed), `_pending`, `_listeners`. -/
structure RefSt where
  old : Val
  state : Val
  pending : Val
  listeners : List ListenerId
deriving DecidableEq, Repr

/-- `ComputedState`: `_fn`, `_old`, `_state`, `_capture`, `_listeners`. -/
structure CompSt where
  fn : Prog
  old : Val
  state : Val
  capture : Capture
  listeners : List ListenerId

/-- `EffectState`: `_fn`, `_capture`, `_clear` (0 = no cleanup), `_deleted`. -/
structure EffSt where
  fn : Prog
  capture : Capture
  clear : Val
  deleted : Bool

/-- Inert record held by ref ids not yet handed out. -/
def RefSt.init : RefSt := ⟨0, 0, 0, []⟩

/-- Inert record held by computed ids not yet handed out. -/
def CompSt.init : CompSt := ⟨.ret 0, 0, 0, Capture.empty, []⟩

/-- Inert record held by effect ids not yet handed out. -/
def EffSt.init : EffSt := ⟨.ret 0, Capture.empty, 0, false⟩

/-- The entire mutable state of the signal module: the three node heaps plus
every module-level global (`currentCapture`, `dirtyStates`, `currentUpdate`,
`recursive`, the id counters, and the `collect` registration lists). -/
structure Engine where
  refs : Nat → RefSt
  comps : Nat → CompSt
  effs : Nat → EffSt
  currentCapture : Option Capture
  dirtyStates : List Nat
  currentUpdate : Bool
  recursive : Mode
  refId : Nat
  computedId : Nat
  effectId : Nat
  currentRefs : Option (List Nat)
  currentComputes : Option (List Nat)
  currentEffects : Option (List Nat)

/-- Store a `RefState` record at id `i`. -/
def setRef (i : Nat) (r : RefSt) (s : Engine) : Engine :=
  { s with refs := fun k => if k = i then r else s.refs k }

/-- Store a `ComputedState` record at id `j`. -/
def setComp (j : Nat) (c : CompSt) (s : Engine) : Engine :=
  { s with comps := fun k => if k = j then c else s.comps k }

/-- Store an `EffectState` record at id `k`. -/
def setEff (k : Nat) (e : EffSt) (s : Engine) : Engine :=
  { s with effs := fun k' => if k' = k then e else s.effs k' }

/-- `currentCapture?._getters.add(node)`. -/
def capAddGetter (g : GetterId) (s : Engine) : Engine :=
  { s with currentCapture :=
      s.currentCapture.map fun c => { c with getters := addSet g c.getters } }

/-- `currentCapture?._setters.add(node)`. -/
def capAddSetter (i : Nat) (s : Engine) : Engine :=
  { s with currentCapture :=
      s.currentCapture.map fun c => { c with setters := addSet i c.setters } }

/-- The `_listeners` set of a readable node. -/
def listenersOf (s : Engine) : GetterId → List ListenerId
  | .ref i => (s.refs i).listeners
  | .comp i => (s.comps i).listeners

/-- `node._listeners.add(x)` for a readable node `g`. -/
def addListener (g : GetterId) (x : ListenerId) (s : Engine) : Engine :=
  match g with
  | .ref i => setRef i { s.refs i with listeners := addSet x (s.refs i).listeners } s
  | .comp i => setComp i { s.comps i with listeners := addSet x (s.comps i).listeners } s

/-- `node._listeners.delete(x)` for a readable node `g`. -/
def delListener (g : GetterId) (x : ListenerId) (s : Engine) : Engine :=
  match g with
  | .ref i => setRef i { s.refs i with listeners := delSet x (s.refs i).listeners } s
  | .comp i => setComp i { s.comps i with listeners := delSet x (s.comps i).listeners } s

/-- `for (const node of getters) node._listeners.add(x)`. -/
def linkAll (gs : List GetterId) (x : ListenerId) (s : Engine) : Engine :=
  gs.foldl (fun s g => addListener g x s) s

/-- `for (const node of getters) node._listeners.delete(x)`. -/
def unlinkAll (gs : List GetterId) (x : ListenerId) (s : Engine) : Engine :=
  gs.foldl (fun s g => delListener g x s) s

/-- `enqueueUpdate`: add to `dirtyStates`; if no flush is pending, mark one
pending (the `setTimeout(updateStates)` itself is the host running
`updateStates` in a later turn, modelled by applying `updateStates` to the
resulting state). -/
def enqueueUpdate (i : Nat) (s : Engine) : Engine :=
  if s.currentUpdate then { s with dirtyStates := addSet i s.dirtyStates }
  else { s with dirtyStates := addSet i s.dirtyStates, currentUpdate := true }

/-- The `RefState.value` setter: record in the active capture's setters; if
the new value differs from the committed `_state`, stage it in `_pending` and
enqueue the node. -/
def refSetValue (i : Nat) (v : Val) (s : Engine) : Engine :=
  if v ≠ (s.refs i).state then
    enqueueUpdate i (setRef i { s.refs i with pending := v } (capAddSetter i s))
  else capAddSetter i s

/-- `assertRecursive(name)`: `none` means the construction may proceed,
`some e` means the constructor throws `e`. -/
def assertRecursive (name : Kind) (m : Mode) : Option Err :=
  if m = .off then none
  else if name = .effectK ∧ m = .effectM then none
  else some (.typeError name m)

/-- Entry of the `collect` API: install three fresh registration lists. -/
def initRegs (s : Engine) : Engine :=
  { s with currentRefs := some [], currentComputes := some [], currentEffects := some [] }

/-- The `finally` of `collect`: clear all three registration globals. -/
def clearRegs (s : Engine) : Engine :=
  { s with currentRefs := none, currentComputes := none, currentEffects := none }

/-- The interpreter of user bodies.  Each case performs exactly what the
source lets user code do: reads go through the `value` getters (registering
in `currentCapture`), writes through the `RefState.value` setter, the
constructor cases follow `ref` / `computed` / `effect` including
`assertRecursive`, id allocation, the `recursive` flag handling, the
`runCapture` save/swap/restore of `currentCapture` (restored on both exit
paths, as by `finally`), edge linking, and registration in the `collect`
lists; `collectP` follows the `collect` function with its tuple result
dropped.  A constructed node becomes reachable (stored in its heap) when its
constructor completes. -/
def evalProg : Prog → Engine → Except Err Val × Engine × List Event
  | .ret v, s => (.ok v, s, [])
  | .seq a b, s =>
    match evalProg a s with
    | (.error e, s1, tr) => (.error e, s1, tr)
    | (.ok _, s1, tr) =>
      match evalProg b s1 with
      | (r, s2, tr2) => (r, s2, tr ++ tr2)
  | .readRef i, s => (.ok (s.refs i).state, capAddGetter (.ref i) s, [])
  | .readComp i, s => (.ok (s.comps i).state, capAddGetter (.comp i) s, [])
  | .writeRef i rhs, s =>
    match evalProg rhs s with
    | (.error e, s1, tr) => (.error e, s1, tr)
    | (.ok v, s1, tr) => (.ok v, refSetValue i v s1, tr)
  | .iteP c t e, s =>
    match evalProg c s with
    | (.error er, s1, tr) => (.error er, s1, tr)
    | (.ok v, s1, tr) =>
      match (if v = 0 then evalProg e s1 else evalProg t s1) with
      | (r, s2, tr2) => (r, s2, tr ++ tr2)
  | .app1 f a, s =>
    match evalProg a s with
    | (.error e, s1, tr) => (.error e, s1, tr)
    | (.ok v, s1, tr) => (.ok (f v), s1, tr)
  | .emit a, s =>
    match evalProg a s with
    | (.error e, s1, tr) => (.error e, s1, tr)
    | (.ok v, s1, tr) => (.ok v, s1, tr ++ [.obs v])
  | .throwErr, s => (.error .userError, s, [])
  | .newRef initArg, s =>
    match evalProg initArg s with
    | (.error e, s1, tr) => (.error e, s1, tr)
    | (.ok v, s1, tr) =>
      match assertRecursive .refK s1.recursive with
      | some e => (.error e, s1, tr)
      | none =>
        let id := s1.refId
        let s2 := setRef id ⟨v, v, v, []⟩ { s1 with refId := id + 1 }
        let s3 := { s2 with currentRefs := s2.currentRefs.map (fun l => l ++ [id]) }
        (.ok id, s3, tr)
  | .newComp body, s =>
    match assertRecursive .computedK s.recursive with
    | some e => (.error e, s, [])
    | none =>
      let id := s.computedId
      let saved := s.currentCapture
      let s1 := { s with computedId := id + 1, recursive := .computedM,
                         currentCapture := some Capture.empty }
      match evalProg body s1 with
      | (.error e, s2, tr) => (.error e, { s2 with currentCapture := saved }, tr)
      | (.ok v, s2, tr) =>
        let cap := s2.currentCapture.getD Capture.empty
        let s3 := { s2 with currentCapture := saved, recursive := .off }
        let s4 := setComp id ⟨body, v, v, cap, []⟩ s3
        let s5 := linkAll cap.getters (.comp id) s4
        let s6 := { s5 with currentComputes := s5.currentComputes.map (fun l => l ++ [id]) }
        (.ok id, s6, tr)
  | .newEff body, s =>
    match assertRecursive .effectK s.recursive with
    | some e => (.error e, s, [])
    | none =>
      let id := s.effectId
      let saved := s.currentCapture
      let s1 := { s with effectId := id + 1, recursive := .effectM,
                         currentCapture := some Capture.empty }
      match evalProg body s1 with
      | (.error e, s2, tr) => (.error e, { s2 with currentCapture := saved }, tr)
      | (.ok v, s2, tr) =>
        let cap := s2.currentCapture.getD Capture.empty
        let s3 := { s2 with currentCapture := saved, recursive := .off }
        let s4 := setEff id ⟨body, cap, v, false⟩ s3
        let s5 := linkAll cap.getters (.eff id) s4
        let s6 := { s5 with currentEffects := s5.currentEffects.map (fun l => l ++ [id]) }
        (.ok id, s6, tr)
  | .collectP body, s =>
    match evalProg body (initRegs s) with
    | (r, s2, tr) => (r, clearRegs s2, tr)

/-- `runCapture(fn, new Capture())` as used by the `_update` methods: save
`currentCapture`, install a fresh capture, run the body, read back the
(mutated) capture, restore the saved one on both exit paths. -/
def runCaptureE (body : Prog) (s : Engine) :
    Except Err Val × Capture × Engine × List Event :=
  let saved := s.currentCapture
  let s1 := { s with currentCapture := some Capture.empty }
  match evalProg body s1 with
  | (r, s2, tr) =>
    (r, s2.currentCapture.getD Capture.empty,
     { s2 with currentCapture := saved }, tr)

/-- `RefState._update`: commit `_pending` into `_state` if they differ,
reporting whether anything changed. -/
def refUpdate (i : Nat) (s : Engine) : Bool × Engine :=
  let r := s.refs i
  if r.state = r.pending then (false, s)
  else (true, setRef i { r with old := r.state, state := r.pending } s)

/-- `ComputedState._update`: unlink the node from its old getters, re-run the
body under a fresh capture, store the new capture, link the new getters, then
compare the new value with the committed one: equal means report unchanged;
different means shift `_state` into `_old`, store the new value, report
changed.  If the body throws, the exception propagates after the (partial)
new capture has been stored; no new edges are linked. -/
def compUpdate (j : Nat) (s : Engine) : Except Err Bool × Engine × List Event :=
  let c := s.comps j
  let s1 := unlinkAll c.capture.getters (.comp j) s
  match runCaptureE c.fn s1 with
  | (.error e, cap, s2, tr) => (.error e, setComp j (CompSt.mk (s2.comps j).fn (s2.comps j).old (s2.comps j).state cap (s2.comps j).listeners) s2, tr)
  | (.ok v, cap, s2, tr) =>
    let s3 := setComp j (CompSt.mk (s2.comps j).fn (s2.comps j).old (s2.comps j).state cap (s2.comps j).listeners) s2
    let s4 := linkAll cap.getters (.comp j) s3
    let c4 := s4.comps j
    if v = c4.state then (.ok false, s4, tr ++ [.compUpd j false])
    else (.ok true, setComp j { c4 with old := c4.state, state := v } s4,
          tr ++ [.compUpd j true])

/-- `EffectState._update`: a guarded no-op when `_deleted`; otherwise invoke
the current cleanup if there is one, unlink the old edges, re-run the body
under a fresh capture, store the new capture and cleanup, link the new edges.
If the body throws, the exception propagates with the (partial) new capture
stored, the old cleanup retained, and no new edges linked. -/
def effUpdate (j : Nat) (s : Engine) : Except Err Unit × Engine × List Event :=
  let e := s.effs j
  if e.deleted then (.ok (), s, [])
  else
    let tr0 : List Event := if e.clear ≠ 0 then [.cleanup e.clear] else []
    let s1 := unlinkAll e.capture.getters (.eff j) s
    match runCaptureE e.fn s1 with
    | (.error er, cap, s2, tr) =>
      (.error er, setEff j { s2.effs j with capture := cap } s2,
       tr0 ++ [.effUnlink j, .effRun j] ++ tr)
    | (.ok v, cap, s2, tr) =>
      let s3 := setEff j { s2.effs j with capture := cap, clear := v } s2
      let s4 := linkAll cap.getters (.eff j) s3
      (.ok (), s4, tr0 ++ [.effUnlink j, .effRun j] ++ tr)

/-- `EffectState._remove`: invoke the cleanup if there is one, unlink the
edges, set `_deleted`.  (No `_deleted` guard of its own, exactly as in the
source.) -/
def effRemove (j : Nat) (s : Engine) : Engine × List Event :=
  let e := s.effs j
  let tr0 : List Event := if e.clear ≠ 0 then [.cleanup e.clear] else []
  let s1 := unlinkAll e.capture.getters (.eff j) s
  (setEff j { s1.effs j with deleted := true } s1, tr0)

/-- The `collect` API: install fresh registration lists, run the callback,
return its result together with whatever the registration-list globals hold
at return time, then unconditionally clear the globals to `none` (the
`finally` block), on both exit paths. -/
def collect (body : Prog) (s : Engine) :
    Except Err (Val × Option (List Nat) × Option (List Nat) × Option (List Nat))
      × Engine × List Event :=
  match evalProg body (initRegs s) with
  | (.error e, s2, tr) => (.error e, clearRegs s2, tr)
  | (.ok v, s2, tr) =>
    (.ok (v, s2.currentRefs, s2.currentComputes, s2.currentEffects), clearRegs s2, tr)

/-- The commit phase of one flush round: `for (const refState of dirty) if
(refState._update()) for (const dest of refState._listeners)
queue.push(dest)`. -/
def commitLeaves (dirty : List Nat) (s : Engine) :
    List ListenerId × Engine × List Event :=
  dirty.foldl
    (fun acc i =>
      match acc with
      | (q, s0, tr) =>
        match refUpdate i s0 with
        | (ch, s1) =>
          (if ch then q ++ (s1.refs i).listeners else q, s1,
           tr ++ [.commitRef i ch]))
    ([], s, [])

/-- The work-list drain of one flush round.  The JS array `queue` is kept
literally: `push` appends at the end, `pop` removes from the end.  A popped
`ComputedState` whose `_update` reports changed pushes its (refreshed)
listeners; a popped `EffectState` never pushes (its `_update` returns
`undefined`).  `none` means the given fuel did not suffice to finish the
loop; an exception from a recompute aborts the drain and propagates. -/
def drain : Nat → List ListenerId → Engine →
    Option (Except Err Unit × Engine × List Event)
  | 0, q, s => if q = [] then some (.ok (), s, []) else none
  | fuel + 1, q, s =>
    match q.getLast? with
    | none => some (.ok (), s, [])
    | some (.comp j) =>
      let q1 := q.dropLast
      match compUpdate j s with
      | (.error e, s1, tr) => some (.error e, s1, tr)
      | (.ok ch, s1, tr) =>
        let q2 := if ch then q1 ++ (s1.comps j).listeners else q1
        match drain fuel q2 s1 with
        | none => none
        | some (r, s2, tr2) => some (r, s2, tr ++ tr2)
    | some (.eff j) =>
      let q1 := q.dropLast
      match effUpdate j s with
      | (.error e, s1, tr) => some (.error e, s1, tr)
      | (.ok _, s1, tr) =>
        match drain fuel q1 s1 with
        | none => none
        | some (r, s2, tr2) => some (r, s2, tr ++ tr2)

/-- The outer `while (dirtyStates.size > 0)` loop of `updateStates`: snapshot
and clear the dirty set, commit every snapshotted leaf, drain the work list,
repeat (the drain may have refilled `dirtyStates` through effect writes).
`none` means the fuel did not suffice. -/
def flushRounds : Nat → Engine → Option (Except Err Unit × Engine × List Event)
  | 0, s => if s.dirtyStates = [] then some (.ok (), s, []) else none
  | fuel + 1, s =>
    if s.dirtyStates = [] then some (.ok (), s, [])
    else
      let dirty := s.dirtyStates
      let s1 := { s with dirtyStates := [] }
      match commitLeaves dirty s1 with
      | (q, s2, tr1) =>
        match drain (fuel + 1) q s2 with
        | none => none
        | some (.error e, s3, tr2) => some (.error e, s3, tr1 ++ tr2)
        | some (.ok _, s3, tr2) =>
          match flushRounds fuel s3 with
          | none => none
          | some (r, s4, tr3) => some (r, s4, tr1 ++ tr2 ++ tr3)

/-- `updateStates`: reset `currentUpdate` and run the rounds loop. -/
def updateStates (fuel : Nat) (s : Engine) :
    Option (Except Err Unit × Engine × List Event) :=
  flushRounds fuel { s with currentUpdate := false }

/-- The module's state at load time. -/
def initEngine : Engine :=
  { refs := fun _ => RefSt.init
    comps := fun _ => CompSt.init
    effs := fun _ => EffSt.init
    currentCapture := none
    dirtyStates := []
    currentUpdate := false
    recursive := .off
    refId := 0
    computedId := 0
    effectId := 0
    currentRefs := none
    currentComputes := none
    currentEffects := none }

/-- A listener id at or beyond the allocation counters of `s`, i.e. one that
can only belong to a node constructed after the point described by `s`. -/
def freshFor (s : Engine) : ListenerId → Prop
  | .comp j => s.computedId ≤ j
  | .eff k => s.effectId ≤ k

/-- Facts preserved by every user-body evaluation: id counters only grow;
already-allocated leaf signals keep their committed `_state`; already
allocated derived signals keep everything except their `_listeners`; already
allocated effects are untouched; and any listener edge present afterwards
either was already present or belongs to a node allocated during the
evaluation. -/
structure Preserves (s s1 : Engine) : Prop where
  refIdLe : s.refId ≤ s1.refId
  compIdLe : s.computedId ≤ s1.computedId
  effIdLe : s.effectId ≤ s1.effectId
  refState : ∀ i, i < s.refId → (s1.refs i).state = (s.refs i).state
  compFn : ∀ j, j < s.computedId → (s1.comps j).fn = (s.comps j).fn
  compOld : ∀ j, j < s.computedId → (s1.comps j).old = (s.comps j).old
  compState : ∀ j, j < s.computedId → (s1.comps j).state = (s.comps j).state
  compCapture : ∀ j, j < s.computedId → (s1.comps j).capture = (s.comps j).capture
  effState : ∀ k, k < s.effectId → s1.effs k = s.effs k
  listeners : ∀ g y, y ∈ listenersOf s1 g → y ∈ listenersOf s g ∨ freshFor s y

/-- The record commit of `RefState._update`: shift `_state` into `_old` and
`_pending` into `_state`. -/
def commitRec (r : RefSt) : RefSt := RefSt.mk r.state r.pending r.pending r.listeners

/-- A flush round starts by clearing the dirty set. -/
def clearDirty (s : Engine) : Engine := { s with dirtyStates := [] }

/-- `true` when the body never calls the `collect` API (directly or inside a
nested constructor body). -/
def noCollect : Prog → Bool
  | .ret _ => true
  | .seq a b => noCollect a && noCollect b
  | .readRef _ => true
  | .readComp _ => true
  | .writeRef _ rhs => noCollect rhs
  | .iteP c t e => noCollect c && noCollect t && noCollect e
  | .app1 _ a => noCollect a
  | .emit a => noCollect a
  | .throwErr => true
  | .newRef i => noCollect i
  | .newComp b => noCollect b
  | .newEff b => noCollect b
  | .collectP _ => false

/-- Registration tracking: across an evaluation, each active `collect`
registration list grows by exactly the ids allocated during the evaluation —
in allocation order for leaf and derived signals, and up to permutation for
effects (a nested effect finishes, and is pushed, before its enclosing
effect). -/
def RegTrack (s s1 : Engine) : Prop :=
  (∀ lr, s.currentRefs = some lr →
      s1.currentRefs = some (lr ++ List.range' s.refId (s1.refId - s.refId)))
  ∧ (∀ lc, s.currentComputes = some lc →
      s1.currentComputes = some (lc ++ List.range' s.computedId (s1.computedId - s.computedId)))
  ∧ (∀ le, s.currentEffects = some le →
      ∃ lnew, s1.currentEffects = some (le ++ lnew)
        ∧ lnew.Perm (List.range' s.effectId (s1.effectId - s.effectId)))

/-- A small concrete engine used to instantiate theorems: one leaf signal
(id 0, committed value 1) with a derived signal (id 0, body `readRef 0`) and
an effect (id 0, body `readRef 0`, cleanup token 5) listening on it. -/
def wEngine : Engine :=
  { refs := fun i => if i = 0 then ⟨1, 1, 1, [ListenerId.comp 0, ListenerId.eff 0]⟩
      else RefSt.init
    comps := fun j => if j = 0 then ⟨Prog.readRef 0, 1, 1, ⟨[GetterId.ref 0], []⟩, []⟩
      else CompSt.init
    effs := fun k => if k = 0 then ⟨Prog.readRef 0, ⟨[GetterId.ref 0], []⟩, 5, false⟩
      else EffSt.init
    currentCapture := none
    dirtyStates := []
    currentUpdate := false
    recursive := .off
    refId := 1
    computedId := 1
    effectId := 1
    currentRefs := none
    currentComputes := none
    currentEffects := none }

/-- Body of the C9 scenario derived signal: read leaf 0; when it is nonzero,
construct a fresh leaf and return 1, else return 0. -/
def c9Body : Prog :=
  .iteP (.readRef 0) (.seq (.newRef (.ret 7)) (.ret 1)) (.ret 0)

/-- C9 scenario setup: construct leaf 0 (value 0), then a derived signal
over `c9Body` (whose construction-time run takes the harmless branch). -/
def c9Setup : Prog := .seq (.newRef (.ret 0)) (.newComp c9Body)

/-- C9 scenario: after setup, write 1 into leaf 0 (so the next flush makes
the derived signal's recompute construct a leaf signal). -/
def c9State : Engine := refSetValue 0 1 (evalProg c9Setup initEngine).2.1

/-- The commit phase of one flush round, written from the claim: walk the
snapshot, commit each leaf, and collect the listeners of every leaf whose
commit reported changed as the initial work list, recording one commit event
per leaf. -/
def commitLeavesSpec : List Nat → Engine → List ListenerId × Engine × List Event
  | [], s => ([], s, [])
  | i :: rest, s =>
    match refUpdate i s with
    | (ch, s1) =>
      match commitLeavesSpec rest s1 with
      | (q, s2, tr) =>
        ((if ch then (s1.refs i).listeners else []) ++ q, s2, Event.commitRef i ch :: tr)

/-- The work-list drain, written from the claim as a LIFO stack with its top
at the head: pop the most recently pushed node; recompute it; push the
(refreshed) listeners only when the node is a derived signal whose recompute
reported changed (pushing in iteration order puts them reversed on the
stack); an effect pushes nothing. -/
def drainSpec : Nat → List ListenerId → Engine →
    Option (Except Err Unit × Engine × List Event)
  | 0, st, s => if st = [] then some (.ok (), s, []) else none
  | fuel + 1, st, s =>
    match st with
    | [] => some (.ok (), s, [])
    | ListenerId.comp j :: rest =>
      match compUpdate j s with
      | (.error e, s1, tr) => some (.error e, s1, tr)
      | (.ok ch, s1, tr) =>
        match drainSpec fuel
            (if ch then (s1.comps j).listeners.reverse ++ rest else rest) s1 with
        | none => none
        | some (r, s2, tr2) => some (r, s2, tr ++ tr2)
    | ListenerId.eff j :: rest =>
      match effUpdate j s with
      | (.error e, s1, tr) => some (.error e, s1, tr)
      | (.ok _, s1, tr) =>
        match drainSpec fuel rest s1 with
        | none => none
        | some (r, s2, tr2) => some (r, s2, tr ++ tr2)

/-- The outer flush loop, written from the claim: while the dirty set is
non-empty, snapshot and clear it, commit every snapshotted leaf, then drain
the work list (first-pushed at the bottom of the stack), and repeat (the
dirty set may have been refilled by effect writes). -/
def flushRoundsSpec : Nat → Engine → Option (Except Err Unit × Engine × List Event)
  | 0, s => if s.dirtyStates = [] then some (.ok (), s, []) else none
  | fuel + 1, s =>
    if s.dirtyStates = [] then some (.ok (), s, [])
    else
      match commitLeavesSpec s.dirtyStates (clearDirty s) with
      | (q, s2, tr1) =>
        match drainSpec (fuel + 1) q.reverse s2 with
        | none => none
        | some (.error e, s3, tr2) => some (.error e, s3, tr1 ++ tr2)
        | some (.ok _, s3, tr2) =>
          match flushRoundsSpec fuel s3 with
          | none => none
          | some (r, s4, tr3) => some (r, s4, tr1 ++ tr2 ++ tr3)

/-- The flush entry point phrased from the claim. -/
def updateStatesSpec (fuel : Nat) (s : Engine) :
    Option (Except Err Unit × Engine × List Event) :=
  flushRoundsSpec fuel { s with currentUpdate := false }

end LySignal

namespace LySignal

lemma mem_addSet {α : Type} [DecidableEq α] {x y : α} {l : List α} :
    y ∈ addSet x l ↔ y ∈ l ∨ y = x := by
  unfold addSet
  split
  · constructor
    · exact Or.inl
    · rintro (h | rfl) <;> assumption
  · simp [or_comm]

lemma mem_delSet {α : Type} [DecidableEq α] {x y : α} {l : List α} :
    y ∈ delSet x l ↔ y ∈ l ∧ y ≠ x := by
  simp [delSet]

lemma listenersOf_addListener (g g' : GetterId) (x : ListenerId) (s : Engine) :
    listenersOf (addListener g x s) g' =
      if g' = g then addSet x (listenersOf s g) else listenersOf s g' := by
  cases g <;> cases g' <;>
    simp only [addListener, listenersOf, setRef, setComp] <;>
    split <;> simp_all [listenersOf]

lemma listenersOf_delListener (g g' : GetterId) (x : ListenerId) (s : Engine) :
    listenersOf (delListener g x s) g' =
      if g' = g then delSet x (listenersOf s g) else listenersOf s g' := by
  cases g <;> cases g' <;>
    simp only [delListener, listenersOf, setRef, setComp] <;>
    split <;> simp_all [listenersOf]

lemma mem_linkAll {gs : List GetterId} {x y : ListenerId} {s : Engine} {g : GetterId} :
    y ∈ listenersOf (linkAll gs x s) g ↔
      y ∈ listenersOf s g ∨ (y = x ∧ g ∈ gs) := by
  induction gs generalizing s with
  | nil => simp [linkAll]
  | cons a t ih =>
    show y ∈ listenersOf (linkAll t x (addListener a x s)) g ↔ _
    rw [ih, listenersOf_addListener]
    by_cases hg : g = a
    · subst hg
      rw [if_pos rfl, mem_addSet]
      constructor
      · rintro ((h | h) | ⟨rfl, ht⟩)
        · exact Or.inl h
        · exact Or.inr ⟨h, List.mem_cons_self _ _⟩
        · exact Or.inr ⟨rfl, List.mem_cons_of_mem _ ht⟩
      · rintro (h | ⟨rfl, ht⟩)
        · exact Or.inl (Or.inl h)
        · exact Or.inl (Or.inr rfl)
    · rw [if_neg hg]
      constructor
      · rintro (h | ⟨rfl, ht⟩)
        · exact Or.inl h
        · exact Or.inr ⟨rfl, List.mem_cons_of_mem _ ht⟩
      · rintro (h | ⟨rfl, ht⟩)
        · exact Or.inl h
        · rcases List.mem_cons.mp ht with rfl | ht2
          · exact absurd rfl hg
          · exact Or.inr ⟨rfl, ht2⟩

lemma mem_unlinkAll {gs : List GetterId} {x y : ListenerId} {s : Engine} {g : GetterId} :
    y ∈ listenersOf (unlinkAll gs x s) g ↔
      y ∈ listenersOf s g ∧ ¬(y = x ∧ g ∈ gs) := by
  induction gs generalizing s with
  | nil => simp [unlinkAll]
  | cons a t ih =>
    show y ∈ listenersOf (unlinkAll t x (delListener a x s)) g ↔ _
    rw [ih, listenersOf_delListener]
    by_cases hg : g = a
    · subst hg
      rw [if_pos rfl, mem_delSet]
      constructor
      · rintro ⟨⟨h, hyx⟩, _⟩
        exact ⟨h, fun hc => hyx hc.1⟩
      · rintro ⟨h, hn⟩
        refine ⟨⟨h, fun hy => hn ⟨hy, List.mem_cons_self _ _⟩⟩, ?_⟩
        rintro ⟨hy, ht⟩
        exact hn ⟨hy, List.mem_cons_of_mem _ ht⟩
    · rw [if_neg hg]
      constructor
      · rintro ⟨h, hn⟩
        refine ⟨h, ?_⟩
        rintro ⟨rfl, ht⟩
        rcases List.mem_cons.mp ht with rfl | ht2
        · exact hg rfl
        · exact hn ⟨rfl, ht2⟩
      · rintro ⟨h, hn⟩
        exact ⟨h, fun hc => hn ⟨hc.1, List.mem_cons_of_mem _ hc.2⟩⟩

end LySignal

namespace LySignal

lemma addListener_refId (g : GetterId) (x : ListenerId) (s : Engine) :
    (addListener g x s).refId = s.refId := by
  cases g <;> rfl

lemma addListener_computedId (g : GetterId) (x : ListenerId) (s : Engine) :
    (addListener g x s).computedId = s.computedId := by
  cases g <;> rfl

lemma addListener_effectId (g : GetterId) (x : ListenerId) (s : Engine) :
    (addListener g x s).effectId = s.effectId := by
  cases g <;> rfl

lemma addListener_effs (g : GetterId) (x : ListenerId) (s : Engine) :
    (addListener g x s).effs = s.effs := by
  cases g <;> rfl

lemma addListener_refs_state (g : GetterId) (x : ListenerId) (s : Engine) (i : Nat) :
    ((addListener g x s).refs i).state = (s.refs i).state := by
  cases g with
  | ref j =>
    simp only [addListener, setRef]
    split
    · next h => subst h; rfl
    · rfl
  | comp j => rfl

lemma addListener_refs_pending (g : GetterId) (x : ListenerId) (s : Engine) (i : Nat) :
    ((addListener g x s).refs i).pending = (s.refs i).pending := by
  cases g with
  | ref j =>
    simp only [addListener, setRef]
    split
    · next h => subst h; rfl
    · rfl
  | comp j => rfl

lemma addListener_comps_fn (g : GetterId) (x : ListenerId) (s : Engine) (j : Nat) :
    ((addListener g x s).comps j).fn = (s.comps j).fn := by
  cases g with
  | ref i => rfl
  | comp i =>
    simp only [addListener, setComp]
    split
    · next h => subst h; rfl
    · rfl

lemma addListener_comps_old (g : GetterId) (x : ListenerId) (s : Engine) (j : Nat) :
    ((addListener g x s).comps j).old = (s.comps j).old := by
  cases g with
  | ref i => rfl
  | comp i =>
    simp only [addListener, setComp]
    split
    · next h => subst h; rfl
    · rfl

lemma addListener_comps_state (g : GetterId) (x : ListenerId) (s : Engine) (j : Nat) :
    ((addListener g x s).comps j).state = (s.comps j).state := by
  cases g with
  | ref i => rfl
  | comp i =>
    simp only [addListener, setComp]
    split
    · next h => subst h; rfl
    · rfl

lemma addListener_comps_capture (g : GetterId) (x : ListenerId) (s : Engine) (j : Nat) :
    ((addListener g x s).comps j).capture = (s.comps j).capture := by
  cases g with
  | ref i => rfl
  | comp i =>
    simp only [addListener, setComp]
    split
    · next h => subst h; rfl
    · rfl

lemma delListener_refId (g : GetterId) (x : ListenerId) (s : Engine) :
    (delListener g x s).refId = s.refId := by
  cases g <;> rfl

lemma delListener_computedId (g : GetterId) (x : ListenerId) (s : Engine) :
    (delListener g x s).computedId = s.computedId := by
  cases g <;> rfl

lemma delListener_effectId (g : GetterId) (x : ListenerId) (s : Engine) :
    (delListener g x s).effectId = s.effectId := by
  cases g <;> rfl

lemma delListener_effs (g : GetterId) (x : ListenerId) (s : Engine) :
    (delListener g x s).effs = s.effs := by
  cases g <;> rfl

lemma delListener_refs_state (g : GetterId) (x : ListenerId) (s : Engine) (i : Nat) :
    ((delListener g x s).refs i).state = (s.refs i).state := by
  cases g with
  | ref j =>
    simp only [delListener, setRef]
    split
    · next h => subst h; rfl
    · rfl
  | comp j => rfl

lemma delListener_refs_pending (g : GetterId) (x : ListenerId) (s : Engine) (i : Nat) :
    ((delListener g x s).refs i).pending = (s.refs i).pending := by
  cases g with
  | ref j =>
    simp only [delListener, setRef]
    split
    · next h => subst h; rfl
    · rfl
  | comp j => rfl

lemma delListener_comps_fn (g : GetterId) (x : ListenerId) (s : Engine) (j : Nat) :
    ((delListener g x s).comps j).fn = (s.comps j).fn := by
  cases g with
  | ref i => rfl
  | comp i =>
    simp only [delListener, setComp]
    split
    · next h => subst h; rfl
    · rfl

lemma delListener_comps_old (g : GetterId) (x : ListenerId) (s : Engine) (j : Nat) :
    ((delListener g x s).comps j).old = (s.comps j).old := by
  cases g with
  | ref i => rfl
  | comp i =>
    simp only [delListener, setComp]
    split
    · next h => subst h; rfl
    · rfl

lemma delListener_comps_state (g : GetterId) (x : ListenerId) (s : Engine) (j : Nat) :
    ((delListener g x s).comps j).state = (s.comps j).state := by
  cases g with
  | ref i => rfl
  | comp i =>
    simp only [delListener, setComp]
    split
    · next h => subst h; rfl
    · rfl

lemma delListener_comps_capture (g : GetterId) (x : ListenerId) (s : Engine) (j : Nat) :
    ((delListener g x s).comps j).capture = (s.comps j).capture := by
  cases g with
  | ref i => rfl
  | comp i =>
    simp only [delListener, setComp]
    split
    · next h => subst h; rfl
    · rfl

lemma linkAll_refId (gs : List GetterId) (x : ListenerId) (s : Engine) :
    (linkAll gs x s).refId = s.refId := by
  induction gs generalizing s with
  | nil => rfl
  | cons a t ih => exact (ih _).trans (addListener_refId a x s)

lemma linkAll_computedId (gs : List GetterId) (x : ListenerId) (s : Engine) :
    (linkAll gs x s).computedId = s.computedId := by
  induction gs generalizing s with
  | nil => rfl
  | cons a t ih => exact (ih _).trans (addListener_computedId a x s)

lemma linkAll_effectId (gs : List GetterId) (x : ListenerId) (s : Engine) :
    (linkAll gs x s).effectId = s.effectId := by
  induction gs generalizing s with
  | nil => rfl
  | cons a t ih => exact (ih _).trans (addListener_effectId a x s)

lemma linkAll_effs (gs : List GetterId) (x : ListenerId) (s : Engine) :
    (linkAll gs x s).effs = s.effs := by
  induction gs generalizing s with
  | nil => rfl
  | cons a t ih => exact (ih _).trans (addListener_effs a x s)

lemma linkAll_refs_state (gs : List GetterId) (x : ListenerId) (s : Engine) (i : Nat) :
    ((linkAll gs x s).refs i).state = (s.refs i).state := by
  induction gs generalizing s with
  | nil => rfl
  | cons a t ih => exact (ih _).trans (addListener_refs_state a x s i)

lemma linkAll_refs_pending (gs : List GetterId) (x : ListenerId) (s : Engine) (i : Nat) :
    ((linkAll gs x s).refs i).pending = (s.refs i).pending := by
  induction gs generalizing s with
  | nil => rfl
  | cons a t ih => exact (ih _).trans (addListener_refs_pending a x s i)

lemma linkAll_comps_fn (gs : List GetterId) (x : ListenerId) (s : Engine) (j : Nat) :
    ((linkAll gs x s).comps j).fn = (s.comps j).fn := by
  induction gs generalizing s with
  | nil => rfl
  | cons a t ih => exact (ih _).trans (addListener_comps_fn a x s j)

lemma linkAll_comps_old (gs : List GetterId) (x : ListenerId) (s : Engine) (j : Nat) :
    ((linkAll gs x s).comps j).old = (s.comps j).old := by
  induction gs generalizing s with
  | nil => rfl
  | cons a t ih => exact (ih _).trans (addListener_comps_old a x s j)

lemma linkAll_comps_state (gs : List GetterId) (x : ListenerId) (s : Engine) (j : Nat) :
    ((linkAll gs x s).comps j).state = (s.comps j).state := by
  induction gs generalizing s with
  | nil => rfl
  | cons a t ih => exact (ih _).trans (addListener_comps_state a x s j)

lemma linkAll_comps_capture (gs : List GetterId) (x : ListenerId) (s : Engine) (j : Nat) :
    ((linkAll gs x s).comps j).capture = (s.comps j).capture := by
  induction gs generalizing s with
  | nil => rfl
  | cons a t ih => exact (ih _).trans (addListener_comps_capture a x s j)

lemma unlinkAll_refId (gs : List GetterId) (x : ListenerId) (s : Engine) :
    (unlinkAll gs x s).refId = s.refId := by
  induction gs generalizing s with
  | nil => rfl
  | cons a t ih => exact (ih _).trans (delListener_refId a x s)

lemma unlinkAll_computedId (gs : List GetterId) (x : ListenerId) (s : Engine) :
    (unlinkAll gs x s).computedId = s.computedId := by
  induction gs generalizing s with
  | nil => rfl
  | cons a t ih => exact (ih _).trans (delListener_computedId a x s)

lemma unlinkAll_effectId (gs : List GetterId) (x : ListenerId) (s : Engine) :
    (unlinkAll gs x s).effectId = s.effectId := by
  induction gs generalizing s with
  | nil => rfl
  | cons a t ih => exact (ih _).trans (delListener_effectId a x s)

lemma unlinkAll_effs (gs : List GetterId) (x : ListenerId) (s : Engine) :
    (unlinkAll gs x s).effs = s.effs := by
  induction gs generalizing s with
  | nil => rfl
  | cons a t ih => exact (ih _).trans (delListener_effs a x s)

lemma unlinkAll_refs_state (gs : List GetterId) (x : ListenerId) (s : Engine) (i : Nat) :
    ((unlinkAll gs x s).refs i).state = (s.refs i).state := by
  induction gs generalizing s with
  | nil => rfl
  | cons a t ih => exact (ih _).trans (delListener_refs_state a x s i)

lemma unlinkAll_refs_pending (gs : List GetterId) (x : ListenerId) (s : Engine) (i : Nat) :
    ((unlinkAll gs x s).refs i).pending = (s.refs i).pending := by
  induction gs generalizing s with
  | nil => rfl
  | cons a t ih => exact (ih _).trans (delListener_refs_pending a x s i)

lemma unlinkAll_comps_fn (gs : List GetterId) (x : ListenerId) (s : Engine) (j : Nat) :
    ((unlinkAll gs x s).comps j).fn = (s.comps j).fn := by
  induction gs generalizing s with
  | nil => rfl
  | cons a t ih => exact (ih _).trans (delListener_comps_fn a x s j)

lemma unlinkAll_comps_old (gs : List GetterId) (x : ListenerId) (s : Engine) (j : Nat) :
    ((unlinkAll gs x s).comps j).old = (s.comps j).old := by
  induction gs generalizing s with
  | nil => rfl
  | cons a t ih => exact (ih _).trans (delListener_comps_old a x s j)

lemma unlinkAll_comps_state (gs : List GetterId) (x : ListenerId) (s : Engine) (j : Nat) :
    ((unlinkAll gs x s).comps j).state = (s.comps j).state := by
  induction gs generalizing s with
  | nil => rfl
  | cons a t ih => exact (ih _).trans (delListener_comps_state a x s j)

lemma unlinkAll_comps_capture (gs : List GetterId) (x : ListenerId) (s : Engine) (j : Nat) :
    ((unlinkAll gs x s).comps j).capture = (s.comps j).capture := by
  induction gs generalizing s with
  | nil => rfl
  | cons a t ih => exact (ih _).trans (delListener_comps_capture a x s j)

lemma unlinkAll_currentCapture (gs : List GetterId) (x : ListenerId) (s : Engine) :
    (unlinkAll gs x s).currentCapture = s.currentCapture := by
  induction gs generalizing s with
  | nil => rfl
  | cons a t ih =>
    refine (ih _).trans ?_
    cases a <;> rfl

lemma unlinkAll_recursive (gs : List GetterId) (x : ListenerId) (s : Engine) :
    (unlinkAll gs x s).recursive = s.recursive := by
  induction gs generalizing s with
  | nil => rfl
  | cons a t ih =>
    refine (ih _).trans ?_
    cases a <;> rfl

lemma linkAll_currentCapture (gs : List GetterId) (x : ListenerId) (s : Engine) :
    (linkAll gs x s).currentCapture = s.currentCapture := by
  induction gs generalizing s with
  | nil => rfl
  | cons a t ih =>
    refine (ih _).trans ?_
    cases a <;> rfl

lemma linkAll_recursive (gs : List GetterId) (x : ListenerId) (s : Engine) :
    (linkAll gs x s).recursive = s.recursive := by
  induction gs generalizing s with
  | nil => rfl
  | cons a t ih =>
    refine (ih _).trans ?_
    cases a <;> rfl

end LySignal

namespace LySignal


lemma Preserves.refl {s : Engine} : Preserves s s :=
  ⟨le_refl _, le_refl _, le_refl _, fun _ _ => Eq.refl _, fun _ _ => Eq.refl _,
   fun _ _ => Eq.refl _, fun _ _ => Eq.refl _, fun _ _ => Eq.refl _,
   fun _ _ => Eq.refl _, fun _ _ h => Or.inl h⟩

lemma freshFor_mono {s s1 : Engine} (hc : s.computedId ≤ s1.computedId)
    (he : s.effectId ≤ s1.effectId) {y : ListenerId} (h : freshFor s1 y) :
    freshFor s y := by
  cases y with
  | comp j => exact le_trans hc h
  | eff k => exact le_trans he h

lemma Preserves.trans {s s1 s2 : Engine} (h1 : Preserves s s1) (h2 : Preserves s1 s2) :
    Preserves s s2 := by
  refine ⟨le_trans h1.refIdLe h2.refIdLe, le_trans h1.compIdLe h2.compIdLe,
    le_trans h1.effIdLe h2.effIdLe, ?_, ?_, ?_, ?_, ?_, ?_, ?_⟩
  · intro i hi
    exact (h2.refState i (lt_of_lt_of_le hi h1.refIdLe)).trans (h1.refState i hi)
  · intro j hj
    exact (h2.compFn j (lt_of_lt_of_le hj h1.compIdLe)).trans (h1.compFn j hj)
  · intro j hj
    exact (h2.compOld j (lt_of_lt_of_le hj h1.compIdLe)).trans (h1.compOld j hj)
  · intro j hj
    exact (h2.compState j (lt_of_lt_of_le hj h1.compIdLe)).trans (h1.compState j hj)
  · intro j hj
    exact (h2.compCapture j (lt_of_lt_of_le hj h1.compIdLe)).trans (h1.compCapture j hj)
  · intro k hk
    exact (h2.effState k (lt_of_lt_of_le hk h1.effIdLe)).trans (h1.effState k hk)
  · intro g y h
    rcases h2.listeners g y h with h | h
    · exact h1.listeners g y h
    · exact Or.inr (freshFor_mono h1.compIdLe h1.effIdLe h)

/-- Listener sets only depend on the `refs` and `comps` heaps. -/
lemma listenersOf_heapsEq {s s1 : Engine} (h1 : s1.refs = s.refs)
    (h2 : s1.comps = s.comps) (g : GetterId) :
    listenersOf s1 g = listenersOf s g := by
  cases g <;> simp [listenersOf, h1, h2]

/-- `Preserves` holds whenever the three heaps are untouched and the counters
do not shrink (only scheduler / capture / mode / registration globals
changed). -/
lemma Preserves.of_globals {s s1 : Engine} (hr : s1.refs = s.refs)
    (hc : s1.comps = s.comps) (he : s1.effs = s.effs)
    (h1 : s.refId ≤ s1.refId) (h2 : s.computedId ≤ s1.computedId)
    (h3 : s.effectId ≤ s1.effectId) : Preserves s s1 := by
  refine ⟨h1, h2, h3, ?_, ?_, ?_, ?_, ?_, ?_, ?_⟩
  · intro i _; rw [hr]
  · intro j _; rw [hc]
  · intro j _; rw [hc]
  · intro j _; rw [hc]
  · intro j _; rw [hc]
  · intro k _; rw [he]
  · intro g y h
    left
    rwa [listenersOf_heapsEq hr hc] at h

/-- Extending a `Preserves` chain by storing a fresh `ComputedState` record
(with an empty listener set) at an id at or beyond the original counter. -/
lemma Preserves.setCompStep {s s3 : Engine} (h : Preserves s s3) (id : Nat)
    (hid : s.computedId ≤ id) (c : CompSt) (hc : c.listeners = []) :
    Preserves s (setComp id c s3) := by
  refine ⟨h.refIdLe, h.compIdLe, h.effIdLe, h.refState, ?_, ?_, ?_, ?_, h.effState, ?_⟩
  · intro j hj
    have : j ≠ id := Nat.ne_of_lt (lt_of_lt_of_le hj hid)
    simpa [setComp, this] using h.compFn j hj
  · intro j hj
    have : j ≠ id := Nat.ne_of_lt (lt_of_lt_of_le hj hid)
    simpa [setComp, this] using h.compOld j hj
  · intro j hj
    have : j ≠ id := Nat.ne_of_lt (lt_of_lt_of_le hj hid)
    simpa [setComp, this] using h.compState j hj
  · intro j hj
    have : j ≠ id := Nat.ne_of_lt (lt_of_lt_of_le hj hid)
    simpa [setComp, this] using h.compCapture j hj
  · intro g y hy
    cases g with
    | ref i => exact h.listeners (.ref i) y hy
    | comp j =>
      by_cases hj : j = id
      · subst hj
        simp [listenersOf, setComp, hc] at hy
      · simp only [listenersOf, setComp, if_neg hj] at hy
        exact h.listeners (.comp j) y hy

/-- Extending a `Preserves` chain by storing a fresh `RefState` record (with
an empty listener set) at an id at or beyond the original counter. -/
lemma Preserves.setRefStep {s s3 : Engine} (h : Preserves s s3) (id : Nat)
    (hid : s.refId ≤ id) (rc : RefSt) (hrc : rc.listeners = []) :
    Preserves s (setRef id rc s3) := by
  refine ⟨h.refIdLe, h.compIdLe, h.effIdLe, ?_, h.compFn, h.compOld, h.compState,
    h.compCapture, h.effState, ?_⟩
  · intro i hi
    have : i ≠ id := Nat.ne_of_lt (lt_of_lt_of_le hi hid)
    simpa [setRef, this] using h.refState i hi
  · intro g y hy
    cases g with
    | comp j => exact h.listeners (.comp j) y hy
    | ref i =>
      by_cases hi : i = id
      · subst hi
        simp [listenersOf, setRef, hrc] at hy
      · simp only [listenersOf, setRef, if_neg hi] at hy
        exact h.listeners (.ref i) y hy

/-- Extending a `Preserves` chain by storing a fresh `EffectState` record at
an id at or beyond the original counter. -/
lemma Preserves.setEffStep {s s3 : Engine} (h : Preserves s s3) (id : Nat)
    (hid : s.effectId ≤ id) (e : EffSt) : Preserves s (setEff id e s3) := by
  refine ⟨h.refIdLe, h.compIdLe, h.effIdLe, h.refState, h.compFn, h.compOld,
    h.compState, h.compCapture, ?_, ?_⟩
  · intro k hk
    have : k ≠ id := Nat.ne_of_lt (lt_of_lt_of_le hk hid)
    simpa [setEff, this] using h.effState k hk
  · intro g y hy
    cases g with
    | ref i => exact h.listeners (.ref i) y hy
    | comp j => exact h.listeners (.comp j) y hy

/-- Extending a `Preserves` chain by linking a freshly allocated listener into
arbitrary getters. -/
lemma Preserves.linkAllStep {s s4 : Engine} (h : Preserves s s4)
    (gs : List GetterId) (x : ListenerId) (hx : freshFor s x) :
    Preserves s (linkAll gs x s4) := by
  refine ⟨?_, ?_, ?_, ?_, ?_, ?_, ?_, ?_, ?_, ?_⟩
  · rw [linkAll_refId]; exact h.refIdLe
  · rw [linkAll_computedId]; exact h.compIdLe
  · rw [linkAll_effectId]; exact h.effIdLe
  · intro i hi; rw [linkAll_refs_state]; exact h.refState i hi
  · intro j hj; rw [linkAll_comps_fn]; exact h.compFn j hj
  · intro j hj; rw [linkAll_comps_old]; exact h.compOld j hj
  · intro j hj; rw [linkAll_comps_state]; exact h.compState j hj
  · intro j hj; rw [linkAll_comps_capture]; exact h.compCapture j hj
  · intro k hk; rw [linkAll_effs]; exact h.effState k hk
  · intro g y hy
    rcases mem_linkAll.mp hy with hy | ⟨rfl, _⟩
    · exact h.listeners g y hy
    · exact Or.inr hx

lemma preserves_capAddGetter (g : GetterId) (s : Engine) :
    Preserves s (capAddGetter g s) :=
  Preserves.of_globals rfl rfl rfl (le_refl _) (le_refl _) (le_refl _)

lemma preserves_capAddSetter (i : Nat) (s : Engine) :
    Preserves s (capAddSetter i s) :=
  Preserves.of_globals rfl rfl rfl (le_refl _) (le_refl _) (le_refl _)

lemma enqueueUpdate_refs (i : Nat) (s : Engine) : (enqueueUpdate i s).refs = s.refs := by
  unfold enqueueUpdate
  split <;> rfl

lemma enqueueUpdate_comps (i : Nat) (s : Engine) : (enqueueUpdate i s).comps = s.comps := by
  unfold enqueueUpdate
  split <;> rfl

lemma enqueueUpdate_effs (i : Nat) (s : Engine) : (enqueueUpdate i s).effs = s.effs := by
  unfold enqueueUpdate
  split <;> rfl

lemma enqueueUpdate_refId (i : Nat) (s : Engine) : (enqueueUpdate i s).refId = s.refId := by
  unfold enqueueUpdate
  split <;> rfl

lemma enqueueUpdate_computedId (i : Nat) (s : Engine) :
    (enqueueUpdate i s).computedId = s.computedId := by
  unfold enqueueUpdate
  split <;> rfl

lemma enqueueUpdate_effectId (i : Nat) (s : Engine) :
    (enqueueUpdate i s).effectId = s.effectId := by
  unfold enqueueUpdate
  split <;> rfl

lemma enqueueUpdate_currentCapture (i : Nat) (s : Engine) :
    (enqueueUpdate i s).currentCapture = s.currentCapture := by
  unfold enqueueUpdate
  split <;> rfl

lemma enqueueUpdate_recursive (i : Nat) (s : Engine) :
    (enqueueUpdate i s).recursive = s.recursive := by
  unfold enqueueUpdate
  split <;> rfl

lemma refSetValue_refs_state (i : Nat) (v : Val) (s : Engine) (i' : Nat) :
    ((refSetValue i v s).refs i').state = (s.refs i').state := by
  unfold refSetValue
  split
  · rw [enqueueUpdate_refs]
    simp only [setRef, capAddSetter]
    split
    · next h => subst h; rfl
    · rfl
  · rfl

lemma refSetValue_refs_old (i : Nat) (v : Val) (s : Engine) (i' : Nat) :
    ((refSetValue i v s).refs i').old = (s.refs i').old := by
  unfold refSetValue
  split
  · rw [enqueueUpdate_refs]
    simp only [setRef, capAddSetter]
    split
    · next h => subst h; rfl
    · rfl
  · rfl

lemma refSetValue_refs_listeners (i : Nat) (v : Val) (s : Engine) (i' : Nat) :
    ((refSetValue i v s).refs i').listeners = (s.refs i').listeners := by
  unfold refSetValue
  split
  · rw [enqueueUpdate_refs]
    simp only [setRef, capAddSetter]
    split
    · next h => subst h; rfl
    · rfl
  · rfl

lemma refSetValue_comps (i : Nat) (v : Val) (s : Engine) :
    (refSetValue i v s).comps = s.comps := by
  unfold refSetValue
  split
  · rw [enqueueUpdate_comps]; rfl
  · rfl

lemma refSetValue_effs (i : Nat) (v : Val) (s : Engine) :
    (refSetValue i v s).effs = s.effs := by
  unfold refSetValue
  split
  · rw [enqueueUpdate_effs]; rfl
  · rfl

lemma refSetValue_refId (i : Nat) (v : Val) (s : Engine) :
    (refSetValue i v s).refId = s.refId := by
  unfold refSetValue
  split
  · rw [enqueueUpdate_refId]; rfl
  · rfl

lemma refSetValue_computedId (i : Nat) (v : Val) (s : Engine) :
    (refSetValue i v s).computedId = s.computedId := by
  unfold refSetValue
  split
  · rw [enqueueUpdate_computedId]; rfl
  · rfl

lemma refSetValue_effectId (i : Nat) (v : Val) (s : Engine) :
    (refSetValue i v s).effectId = s.effectId := by
  unfold refSetValue
  split
  · rw [enqueueUpdate_effectId]; rfl
  · rfl

lemma refSetValue_recursive (i : Nat) (v : Val) (s : Engine) :
    (refSetValue i v s).recursive = s.recursive := by
  unfold refSetValue
  split
  · rw [enqueueUpdate_recursive]; rfl
  · rfl

lemma listenersOf_refSetValue (i : Nat) (v : Val) (s : Engine) (g : GetterId) :
    listenersOf (refSetValue i v s) g = listenersOf s g := by
  cases g with
  | ref i' => exact refSetValue_refs_listeners i v s i'
  | comp j => rw [listenersOf, listenersOf, refSetValue_comps]

lemma preserves_refSetValue (i : Nat) (v : Val) (s : Engine) :
    Preserves s (refSetValue i v s) := by
  refine ⟨le_of_eq (refSetValue_refId i v s).symm,
    le_of_eq (refSetValue_computedId i v s).symm,
    le_of_eq (refSetValue_effectId i v s).symm,
    fun i' _ => refSetValue_refs_state i v s i',
    fun j _ => by rw [refSetValue_comps],
    fun j _ => by rw [refSetValue_comps],
    fun j _ => by rw [refSetValue_comps],
    fun j _ => by rw [refSetValue_comps],
    fun k _ => by rw [refSetValue_effs],
    fun g y h => Or.inl (by rwa [listenersOf_refSetValue] at h)⟩

end LySignal

namespace LySignal

/-- Every user-body evaluation `Preserves` the engine state in the sense
above, and the only trace events user code itself produces are
observations. -/
lemma evalProg_inv (p : Prog) :
    ∀ (s : Engine) (r : Except Err Val) (s1 : Engine) (tr : List Event),
      evalProg p s = (r, s1, tr) →
      Preserves s s1 ∧ ∀ e ∈ tr, ∃ v, e = Event.obs v := by
  induction p with
  | ret v =>
    intro s r s1 tr h
    simp only [evalProg, Prod.mk.injEq] at h
    obtain ⟨rfl, rfl, rfl⟩ := h
    exact ⟨Preserves.refl, by simp⟩
  | seq a b iha ihb =>
    intro s r s1 tr h
    simp only [evalProg] at h
    rcases hA : evalProg a s with ⟨rA, sA, trA⟩
    rw [hA] at h
    cases rA with
    | error e =>
      dsimp only at h
      simp only [Prod.mk.injEq] at h
      obtain ⟨rfl, rfl, rfl⟩ := h
      exact iha s _ sA trA hA
    | ok v =>
      dsimp only at h
      rcases hB : evalProg b sA with ⟨rB, sB, trB⟩
      rw [hB] at h
      simp only [Prod.mk.injEq] at h
      obtain ⟨rfl, rfl, rfl⟩ := h
      obtain ⟨hpA, htA⟩ := iha s _ sA trA hA
      obtain ⟨hpB, htB⟩ := ihb sA _ sB trB hB
      refine ⟨hpA.trans hpB, ?_⟩
      intro ev he
      rcases List.mem_append.mp he with he | he
      · exact htA ev he
      · exact htB ev he
  | readRef i =>
    intro s r s1 tr h
    simp only [evalProg, Prod.mk.injEq] at h
    obtain ⟨rfl, rfl, rfl⟩ := h
    exact ⟨preserves_capAddGetter _ s, by simp⟩
  | readComp i =>
    intro s r s1 tr h
    simp only [evalProg, Prod.mk.injEq] at h
    obtain ⟨rfl, rfl, rfl⟩ := h
    exact ⟨preserves_capAddGetter _ s, by simp⟩
  | writeRef i rhs ih =>
    intro s r s1 tr h
    simp only [evalProg] at h
    rcases hA : evalProg rhs s with ⟨rA, sA, trA⟩
    rw [hA] at h
    cases rA with
    | error e =>
      dsimp only at h
      simp only [Prod.mk.injEq] at h
      obtain ⟨rfl, rfl, rfl⟩ := h
      exact ih s _ sA trA hA
    | ok v =>
      dsimp only at h
      simp only [Prod.mk.injEq] at h
      obtain ⟨rfl, rfl, rfl⟩ := h
      obtain ⟨hp, ht⟩ := ih s _ sA trA hA
      exact ⟨hp.trans (preserves_refSetValue i v sA), ht⟩
  | iteP c t e ihc iht ihe =>
    intro s r s1 tr h
    simp only [evalProg] at h
    rcases hA : evalProg c s with ⟨rA, sA, trA⟩
    rw [hA] at h
    cases rA with
    | error er =>
      dsimp only at h
      simp only [Prod.mk.injEq] at h
      obtain ⟨rfl, rfl, rfl⟩ := h
      exact ihc s _ sA trA hA
    | ok v =>
      dsimp only at h
      obtain ⟨hpA, htA⟩ := ihc s _ sA trA hA
      by_cases hv : v = 0
      · rw [if_pos hv] at h
        rcases hB : evalProg e sA with ⟨rB, sB, trB⟩
        rw [hB] at h
        simp only [Prod.mk.injEq] at h
        obtain ⟨rfl, rfl, rfl⟩ := h
        obtain ⟨hpB, htB⟩ := ihe sA _ sB trB hB
        refine ⟨hpA.trans hpB, ?_⟩
        intro ev he
        rcases List.mem_append.mp he with he | he
        · exact htA ev he
        · exact htB ev he
      · rw [if_neg hv] at h
        rcases hB : evalProg t sA with ⟨rB, sB, trB⟩
        rw [hB] at h
        simp only [Prod.mk.injEq] at h
        obtain ⟨rfl, rfl, rfl⟩ := h
        obtain ⟨hpB, htB⟩ := iht sA _ sB trB hB
        refine ⟨hpA.trans hpB, ?_⟩
        intro ev he
        rcases List.mem_append.mp he with he | he
        · exact htA ev he
        · exact htB ev he
  | app1 f a ih =>
    intro s r s1 tr h
    simp only [evalProg] at h
    rcases hA : evalProg a s with ⟨rA, sA, trA⟩
    rw [hA] at h
    cases rA with
    | error e =>
      dsimp only at h
      simp only [Prod.mk.injEq] at h
      obtain ⟨rfl, rfl, rfl⟩ := h
      exact ih s _ sA trA hA
    | ok v =>
      dsimp only at h
      simp only [Prod.mk.injEq] at h
      obtain ⟨rfl, rfl, rfl⟩ := h
      exact ih s _ sA trA hA
  | emit a ih =>
    intro s r s1 tr h
    simp only [evalProg] at h
    rcases hA : evalProg a s with ⟨rA, sA, trA⟩
    rw [hA] at h
    cases rA with
    | error e =>
      dsimp only at h
      simp only [Prod.mk.injEq] at h
      obtain ⟨rfl, rfl, rfl⟩ := h
      exact ih s _ sA trA hA
    | ok v =>
      dsimp only at h
      simp only [Prod.mk.injEq] at h
      obtain ⟨rfl, rfl, rfl⟩ := h
      obtain ⟨hp, ht⟩ := ih s _ sA trA hA
      refine ⟨hp, ?_⟩
      intro ev he
      rcases List.mem_append.mp he with he | he
      · exact ht ev he
      · simp only [List.mem_singleton] at he
        exact ⟨v, he⟩
  | throwErr =>
    intro s r s1 tr h
    simp only [evalProg, Prod.mk.injEq] at h
    obtain ⟨rfl, rfl, rfl⟩ := h
    exact ⟨Preserves.refl, by simp⟩
  | newRef initArg ih =>
    intro s r s1 tr h
    simp only [evalProg] at h
    rcases hA : evalProg initArg s with ⟨rA, sA, trA⟩
    rw [hA] at h
    cases rA with
    | error e =>
      dsimp only at h
      simp only [Prod.mk.injEq] at h
      obtain ⟨rfl, rfl, rfl⟩ := h
      exact ih s _ sA trA hA
    | ok v =>
      dsimp only at h
      rcases hAs : assertRecursive .refK sA.recursive with _ | e <;> rw [hAs] at h <;> dsimp only at h
      · simp only [Prod.mk.injEq] at h
        obtain ⟨rfl, rfl, rfl⟩ := h
        obtain ⟨hp, ht⟩ := ih s _ sA trA hA
        refine ⟨?_, ht⟩
        have h1 : Preserves sA { sA with refId := sA.refId + 1 } :=
          Preserves.of_globals rfl rfl rfl (Nat.le_succ _) (le_refl _) (le_refl _)
        have h2 := h1.setRefStep sA.refId (le_refl _) ⟨v, v, v, []⟩ rfl
        exact hp.trans (h2.trans
          (Preserves.of_globals rfl rfl rfl (le_refl _) (le_refl _) (le_refl _)))
      · simp only [Prod.mk.injEq] at h
        obtain ⟨rfl, rfl, rfl⟩ := h
        exact ih s _ sA trA hA
  | newComp body ih =>
    intro s r s1 tr h
    simp only [evalProg] at h
    rcases hAs : assertRecursive .computedK s.recursive with _ | e <;> rw [hAs] at h <;> dsimp only at h
    · rcases hB : evalProg body { s with computedId := s.computedId + 1, recursive := Mode.computedM, currentCapture := some Capture.empty } with ⟨rB, sB, trB⟩
      rw [hB] at h
      have h0 : Preserves s
          { s with computedId := s.computedId + 1, recursive := Mode.computedM,
                   currentCapture := some Capture.empty } :=
        Preserves.of_globals rfl rfl rfl (le_refl _) (Nat.le_succ _) (le_refl _)
      obtain ⟨hpB, htB⟩ := ih _ _ sB trB hB
      cases rB with
      | error e =>
        dsimp only at h
        simp only [Prod.mk.injEq] at h
        obtain ⟨rfl, rfl, rfl⟩ := h
        refine ⟨(h0.trans hpB).trans ?_, htB⟩
        exact Preserves.of_globals rfl rfl rfl (le_refl _) (le_refl _) (le_refl _)
      | ok v =>
        dsimp only at h
        simp only [Prod.mk.injEq] at h
        obtain ⟨rfl, rfl, rfl⟩ := h
        refine ⟨?_, htB⟩
        have h2 : Preserves s
            { sB with currentCapture := s.currentCapture, recursive := Mode.off } :=
          (h0.trans hpB).trans
            (Preserves.of_globals rfl rfl rfl (le_refl _) (le_refl _) (le_refl _))
        have h3 := h2.setCompStep s.computedId
          (le_refl _) ⟨body, v, v, sB.currentCapture.getD Capture.empty, []⟩ rfl
        have h4 := h3.linkAllStep (sB.currentCapture.getD Capture.empty).getters
          (.comp s.computedId) (le_refl _)
        exact h4.trans
          (Preserves.of_globals rfl rfl rfl (le_refl _) (le_refl _) (le_refl _))
    · simp only [Prod.mk.injEq] at h
      obtain ⟨rfl, rfl, rfl⟩ := h
      exact ⟨Preserves.refl, by simp⟩
  | newEff body ih =>
    intro s r s1 tr h
    simp only [evalProg] at h
    rcases hAs : assertRecursive .effectK s.recursive with _ | e <;> rw [hAs] at h <;> dsimp only at h
    · rcases hB : evalProg body { s with effectId := s.effectId + 1, recursive := Mode.effectM, currentCapture := some Capture.empty } with ⟨rB, sB, trB⟩
      rw [hB] at h
      have h0 : Preserves s
          { s with effectId := s.effectId + 1, recursive := Mode.effectM,
                   currentCapture := some Capture.empty } :=
        Preserves.of_globals rfl rfl rfl (le_refl _) (le_refl _) (Nat.le_succ _)
      obtain ⟨hpB, htB⟩ := ih _ _ sB trB hB
      cases rB with
      | error e =>
        dsimp only at h
        simp only [Prod.mk.injEq] at h
        obtain ⟨rfl, rfl, rfl⟩ := h
        refine ⟨(h0.trans hpB).trans ?_, htB⟩
        exact Preserves.of_globals rfl rfl rfl (le_refl _) (le_refl _) (le_refl _)
      | ok v =>
        dsimp only at h
        simp only [Prod.mk.injEq] at h
        obtain ⟨rfl, rfl, rfl⟩ := h
        refine ⟨?_, htB⟩
        have h2 : Preserves s
            { sB with currentCapture := s.currentCapture, recursive := Mode.off } :=
          (h0.trans hpB).trans
            (Preserves.of_globals rfl rfl rfl (le_refl _) (le_refl _) (le_refl _))
        have h3 := h2.setEffStep s.effectId (le_refl _)
          ⟨body, sB.currentCapture.getD Capture.empty, v, false⟩
        have h4 := h3.linkAllStep (sB.currentCapture.getD Capture.empty).getters
          (.eff s.effectId) (le_refl _)
        exact h4.trans
          (Preserves.of_globals rfl rfl rfl (le_refl _) (le_refl _) (le_refl _))
    · simp only [Prod.mk.injEq] at h
      obtain ⟨rfl, rfl, rfl⟩ := h
      exact ⟨Preserves.refl, by simp⟩
  | collectP body ih =>
    intro s r s1 tr h
    simp only [evalProg] at h
    rcases hB : evalProg body (initRegs s) with ⟨rB, sB, trB⟩
    rw [hB] at h
    dsimp only at h
    simp only [Prod.mk.injEq] at h
    obtain ⟨rfl, rfl, rfl⟩ := h
    obtain ⟨hpB, htB⟩ := ih _ _ sB trB hB
    have h0 : Preserves s (initRegs s) :=
      Preserves.of_globals rfl rfl rfl (le_refl _) (le_refl _) (le_refl _)
    refine ⟨(h0.trans hpB).trans ?_, htB⟩
    exact Preserves.of_globals rfl rfl rfl (le_refl _) (le_refl _) (le_refl _)

end LySignal

namespace LySignal

lemma listenersOf_setComp (j : Nat) (c : CompSt) (s : Engine) (g : GetterId) :
    listenersOf (setComp j c s) g =
      if g = .comp j then c.listeners else listenersOf s g := by
  cases g with
  | ref i => simp [listenersOf, setComp]
  | comp j' =>
    simp only [listenersOf, setComp]
    by_cases hj : j' = j
    · subst hj; simp
    · simp [hj]

lemma listenersOf_setRef (i : Nat) (rc : RefSt) (s : Engine) (g : GetterId) :
    listenersOf (setRef i rc s) g =
      if g = .ref i then rc.listeners else listenersOf s g := by
  cases g with
  | comp j => simp [listenersOf, setRef]
  | ref i' =>
    simp only [listenersOf, setRef]
    by_cases hi : i' = i
    · subst hi; simp
    · simp [hi]

lemma listenersOf_setEff (k : Nat) (e : EffSt) (s : Engine) (g : GetterId) :
    listenersOf (setEff k e s) g = listenersOf s g := by
  cases g <;> simp [listenersOf, setEff]

/-- `runCaptureE` preserves the engine like the body run it wraps, emits only
observation events, and restores `currentCapture` to its entry value. -/
lemma runCaptureE_inv (body : Prog) (s : Engine) (r : Except Err Val)
    (cap : Capture) (s2 : Engine) (tr : List Event)
    (h : runCaptureE body s = (r, cap, s2, tr)) :
    Preserves s s2 ∧ (∀ e ∈ tr, ∃ v, e = Event.obs v) ∧
      s2.currentCapture = s.currentCapture := by
  simp only [runCaptureE] at h
  rcases hB : evalProg body { s with currentCapture := some Capture.empty }
    with ⟨rB, sB, trB⟩
  rw [hB] at h
  simp only [Prod.mk.injEq] at h
  obtain ⟨rfl, rfl, rfl, rfl⟩ := h
  obtain ⟨hp, ht⟩ := evalProg_inv body _ _ sB trB hB
  have h0 : Preserves s { s with currentCapture := some Capture.empty } :=
    Preserves.of_globals rfl rfl rfl (le_refl _) (le_refl _) (le_refl _)
  exact ⟨(h0.trans hp).trans
    (Preserves.of_globals rfl rfl rfl (le_refl _) (le_refl _) (le_refl _)), ht, rfl⟩

/-- If every holder of `x` is in `gs`, unlinking `x` from all of `gs` leaves
`x` in no listener set at all. -/
lemma unlinkAll_clears {gs : List GetterId} {x : ListenerId} {s : Engine}
    (hpre : ∀ g, x ∈ listenersOf s g → g ∈ gs) :
    ∀ g, x ∉ listenersOf (unlinkAll gs x s) g := by
  intro g h
  rcases mem_unlinkAll.mp h with ⟨hmem, hn⟩
  exact hn ⟨rfl, hpre g hmem⟩

/-- Linking `x` into exactly the getters `gs`, starting from a state where no
node holds `x`, makes membership of `x` coincide with membership in `gs`. -/
lemma linkAll_exact {gs : List GetterId} {x : ListenerId} {s : Engine}
    (hnone : ∀ g, x ∉ listenersOf s g) :
    ∀ g, x ∈ listenersOf (linkAll gs x s) g ↔ g ∈ gs := by
  intro g
  rw [mem_linkAll]
  constructor
  · rintro (h | ⟨_, hg⟩)
    · exact absurd h (hnone g)
    · exact hg
  · intro hg
    exact Or.inr ⟨rfl, hg⟩

lemma Preserves.not_listener_comp {s s1 : Engine} (h : Preserves s s1) {j : Nat}
    (hj : j < s.computedId) (hn : ∀ g, ListenerId.comp j ∉ listenersOf s g) :
    ∀ g, ListenerId.comp j ∉ listenersOf s1 g := by
  intro g hmem
  rcases h.listeners g _ hmem with hh | hh
  · exact hn g hh
  · simp only [freshFor] at hh
    omega

lemma Preserves.not_listener_eff {s s1 : Engine} (h : Preserves s s1) {k : Nat}
    (hk : k < s.effectId) (hn : ∀ g, ListenerId.eff k ∉ listenersOf s g) :
    ∀ g, ListenerId.eff k ∉ listenersOf s1 g := by
  intro g hmem
  rcases h.listeners g _ hmem with hh | hh
  · exact hn g hh
  · simp only [freshFor] at hh
    omega

end LySignal

namespace LySignal

lemma setComp_comps_self (j : Nat) (c : CompSt) (s : Engine) :
    (setComp j c s).comps j = c := by
  simp [setComp]

lemma setRef_refs_self (i : Nat) (rc : RefSt) (s : Engine) :
    (setRef i rc s).refs i = rc := by
  simp [setRef]

lemma setEff_effs_self (k : Nat) (e : EffSt) (s : Engine) :
    (setEff k e s).effs k = e := by
  simp [setEff]

lemma listenersOf_setComp_keep (j : Nat) (c : CompSt) (s : Engine)
    (hc : c.listeners = (s.comps j).listeners) (g : GetterId) :
    listenersOf (setComp j c s) g = listenersOf s g := by
  rw [listenersOf_setComp]
  split
  · next hg => subst hg; rw [hc]; rfl
  · rfl

/-- Core facts about a successful `ComputedState._update`: afterwards the
node's listener edges mirror exactly the getters of the freshly stored
capture, and the update reports "unchanged" precisely when the committed
value is left as it was. -/
lemma compUpdate_ok_facts {j : Nat} {s : Engine} {ch : Bool} {s' : Engine}
    {tr : List Event} (hj : j < s.computedId)
    (hpre : ∀ g, ListenerId.comp j ∈ listenersOf s g → g ∈ (s.comps j).capture.getters)
    (h : compUpdate j s = (.ok ch, s', tr)) :
    (∀ g, ListenerId.comp j ∈ listenersOf s' g ↔ g ∈ (s'.comps j).capture.getters)
    ∧ (ch = false ↔ (s'.comps j).state = (s.comps j).state) := by
  simp only [compUpdate] at h
  rcases hR : runCaptureE (s.comps j).fn
      (unlinkAll (s.comps j).capture.getters (ListenerId.comp j) s)
    with ⟨r0, cap, s2, trR⟩
  rw [hR] at h
  cases r0 with
  | error e => simp at h
  | ok v =>
    dsimp only at h
    obtain ⟨hP, _, _⟩ := runCaptureE_inv _ _ _ _ _ _ hR
    have hj1 : j < (unlinkAll (s.comps j).capture.getters (ListenerId.comp j) s).computedId := by
      rw [unlinkAll_computedId]; exact hj
    have hclear1 := @unlinkAll_clears _ (ListenerId.comp j) _ hpre
    have hclear2 := hP.not_listener_comp hj1 hclear1
    have hstate2 : (s2.comps j).state = (s.comps j).state := by
      rw [hP.compState j hj1, unlinkAll_comps_state]
    have hclear3 : ∀ g, ListenerId.comp j ∉
        listenersOf (setComp j (CompSt.mk (s2.comps j).fn (s2.comps j).old (s2.comps j).state cap (s2.comps j).listeners) s2) g := by
      intro g hg
      rw [listenersOf_setComp] at hg
      by_cases hgj : g = GetterId.comp j
      · rw [if_pos hgj] at hg
        exact hclear2 (GetterId.comp j) hg
      · rw [if_neg hgj] at hg
        exact hclear2 g hg
    have hexact := @linkAll_exact cap.getters _ _ hclear3
    have hcap4 : ((linkAll cap.getters (ListenerId.comp j)
        (setComp j (CompSt.mk (s2.comps j).fn (s2.comps j).old (s2.comps j).state cap (s2.comps j).listeners) s2)).comps j).capture = cap := by
      rw [linkAll_comps_capture]
      simp [setComp]
    have hc4 : ((linkAll cap.getters (ListenerId.comp j)
        (setComp j (CompSt.mk (s2.comps j).fn (s2.comps j).old (s2.comps j).state cap (s2.comps j).listeners) s2)).comps j).state =
        (s.comps j).state := by
      rw [linkAll_comps_state]
      simp only [setComp, if_pos rfl]
      exact hstate2
    rw [hc4] at h
    by_cases hv : v = (s.comps j).state
    · rw [if_pos hv] at h
      simp only [Prod.mk.injEq, Except.ok.injEq] at h
      obtain ⟨rfl, rfl, rfl⟩ := h
      constructor
      · intro g
        rw [hexact g, hcap4]
      · simp [hc4]
    · rw [if_neg hv] at h
      simp only [Prod.mk.injEq, Except.ok.injEq] at h
      obtain ⟨rfl, rfl, rfl⟩ := h
      constructor
      · intro g
        rw [listenersOf_setComp, setComp_comps_self]
        dsimp only
        rw [hcap4]
        by_cases hgj : g = GetterId.comp j
        · rw [if_pos hgj]
          subst hgj
          exact hexact (GetterId.comp j)
        · rw [if_neg hgj]
          exact hexact g
      · rw [setComp_comps_self]
        dsimp only
        constructor
        · intro hfalse
          cases hfalse
        · intro heq
          exact absurd heq hv

end LySignal

namespace LySignal

/-- A deleted effect's `_update` is a guarded no-op: no cleanup, no body run,
no edge change, no state change. -/
lemma effUpdate_deleted {k : Nat} {s : Engine} (hdel : (s.effs k).deleted = true) :
    effUpdate k s = (.ok (), s, []) := by
  simp [effUpdate, hdel]

/-- Core facts about a successful `EffectState._update` on a live effect:
edge exactness afterwards, the shape of its trace (cleanup first when one
exists, then the unlink of the old edges, then the body re-run), and the
fields stored back. -/
lemma effUpdate_ok_facts {k : Nat} {s s' : Engine} {tr : List Event}
    (hk : k < s.effectId) (hdel : (s.effs k).deleted = false)
    (hpre : ∀ g, ListenerId.eff k ∈ listenersOf s g → g ∈ (s.effs k).capture.getters)
    (h : effUpdate k s = (.ok (), s', tr)) :
    (∀ g, ListenerId.eff k ∈ listenersOf s' g ↔ g ∈ (s'.effs k).capture.getters)
    ∧ (∃ trB, tr = (if (s.effs k).clear ≠ 0 then [Event.cleanup (s.effs k).clear] else [])
          ++ [Event.effUnlink k, Event.effRun k] ++ trB
        ∧ ∀ e ∈ trB, ∃ v, e = Event.obs v)
    ∧ (s'.effs k).deleted = false := by
  simp only [effUpdate, hdel, Bool.false_eq_true, if_false] at h
  rcases hR : runCaptureE (s.effs k).fn
      (unlinkAll (s.effs k).capture.getters (ListenerId.eff k) s)
    with ⟨r0, cap, s2, trR⟩
  rw [hR] at h
  cases r0 with
  | error e => simp at h
  | ok v =>
    dsimp only at h
    simp only [Prod.mk.injEq] at h
    obtain ⟨rfl, rfl⟩ := h.2
    obtain ⟨hP, htr, _⟩ := runCaptureE_inv _ _ _ _ _ _ hR
    have hk1 : k < (unlinkAll (s.effs k).capture.getters (ListenerId.eff k) s).effectId := by
      rw [unlinkAll_effectId]; exact hk
    have hclear1 := @unlinkAll_clears _ (ListenerId.eff k) _ hpre
    have hclear2 := hP.not_listener_eff hk1 hclear1
    have heff2 : s2.effs k = s.effs k := by
      rw [hP.effState k hk1, unlinkAll_effs]
    have hclear3 : ∀ g, ListenerId.eff k ∉
        listenersOf (setEff k (EffSt.mk (s2.effs k).fn cap v (s2.effs k).deleted) s2) g := by
      intro g hg
      rw [listenersOf_setEff] at hg
      exact hclear2 g hg
    have hexact := @linkAll_exact cap.getters _ _ hclear3
    have hcapS : ((linkAll cap.getters (ListenerId.eff k)
        (setEff k (EffSt.mk (s2.effs k).fn cap v (s2.effs k).deleted) s2)).effs k).capture
        = cap := by
      rw [linkAll_effs, setEff_effs_self]
    have hdelS : ((linkAll cap.getters (ListenerId.eff k)
        (setEff k (EffSt.mk (s2.effs k).fn cap v (s2.effs k).deleted) s2)).effs k).deleted
        = false := by
      rw [linkAll_effs, setEff_effs_self]
      show (s2.effs k).deleted = false
      rw [heff2]
      exact hdel
    refine ⟨?_, ⟨trR, rfl, htr⟩, hdelS⟩
    intro g
    rw [hcapS]
    exact hexact g

/-- `EffectState._remove` runs the cleanup (if any), unlinks the edges, and
marks the node deleted. -/
lemma effRemove_facts (k : Nat) (s : Engine) :
    (effRemove k s).2 =
      (if (s.effs k).clear ≠ 0 then [Event.cleanup (s.effs k).clear] else [])
    ∧ (((effRemove k s).1.effs k).deleted = true)
    ∧ (∀ g, ListenerId.eff k ∈ listenersOf (effRemove k s).1 g ↔
        (ListenerId.eff k ∈ listenersOf s g ∧ g ∉ (s.effs k).capture.getters)) := by
  refine ⟨rfl, ?_, ?_⟩
  · show ((setEff k _ _).effs k).deleted = true
    rw [setEff_effs_self]
  · intro g
    show ListenerId.eff k ∈ listenersOf (setEff k _ _) g ↔ _
    rw [listenersOf_setEff, mem_unlinkAll]
    constructor
    · rintro ⟨hm, hn⟩
      exact ⟨hm, fun hg => hn ⟨rfl, hg⟩⟩
    · rintro ⟨hm, hn⟩
      exact ⟨hm, fun hc => hn hc.2⟩

end LySignal

namespace LySignal


lemma wEngine_comp_pre :
    ∀ g, ListenerId.comp 0 ∈ listenersOf wEngine g →
      g ∈ (wEngine.comps 0).capture.getters := by
  intro g hg
  cases g with
  | ref i =>
    by_cases hi : i = 0
    · subst hi
      show GetterId.ref 0 ∈ (wEngine.comps 0).capture.getters
      simp [wEngine]
    · exfalso
      revert hg
      simp [wEngine, listenersOf, RefSt.init, hi]
  | comp i =>
    exfalso
    revert hg
    by_cases hi : i = 0 <;> simp [wEngine, listenersOf, CompSt.init, hi]

lemma wEngine_eff_pre :
    ∀ g, ListenerId.eff 0 ∈ listenersOf wEngine g →
      g ∈ (wEngine.effs 0).capture.getters := by
  intro g hg
  cases g with
  | ref i =>
    by_cases hi : i = 0
    · subst hi
      show GetterId.ref 0 ∈ (wEngine.effs 0).capture.getters
      simp [wEngine]
    · exfalso
      revert hg
      simp [wEngine, listenersOf, RefSt.init, hi]
  | comp i =>
    exfalso
    revert hg
    by_cases hi : i = 0 <;> simp [wEngine, listenersOf, CompSt.init, hi]

/-- C1: edge-mirror exactness.  After any `_update` of a derived or effect
node that completes without throwing, a signal node's listener set contains
that node exactly when the signal is among the getters of the capture stored
by that (most recent) evaluation — so no source not read in that evaluation
retains the node as a listener.  The hypotheses say the node was genuinely
allocated and that the mirror held in the forward direction beforehand (as
established at construction and maintained by every update). -/
theorem C1_edge_mirror_exactness :
    (∀ (j : Nat) (s : Engine) (ch : Bool) (s' : Engine) (tr : List Event),
      j < s.computedId →
      (∀ g, ListenerId.comp j ∈ listenersOf s g → g ∈ (s.comps j).capture.getters) →
      compUpdate j s = (.ok ch, s', tr) →
      ∀ g, ListenerId.comp j ∈ listenersOf s' g ↔ g ∈ (s'.comps j).capture.getters)
    ∧ (∀ (k : Nat) (s s' : Engine) (tr : List Event),
      k < s.effectId →
      (s.effs k).deleted = false →
      (∀ g, ListenerId.eff k ∈ listenersOf s g → g ∈ (s.effs k).capture.getters) →
      effUpdate k s = (.ok (), s', tr) →
      ∀ g, ListenerId.eff k ∈ listenersOf s' g ↔ g ∈ (s'.effs k).capture.getters) :=
  ⟨fun _ _ _ _ _ hj hpre h => (compUpdate_ok_facts hj hpre h).1,
   fun _ _ _ _ hk hdel hpre h => (effUpdate_ok_facts hk hdel hpre h).1⟩

/-- Witness for C1 at the concrete engine `wEngine`. -/
theorem C1_witness :
    ((0 < wEngine.computedId ∧
      compUpdate 0 wEngine =
        (.ok false, (compUpdate 0 wEngine).2.1, (compUpdate 0 wEngine).2.2)) ∧
      ∀ g, ListenerId.comp 0 ∈ listenersOf (compUpdate 0 wEngine).2.1 g ↔
        g ∈ ((compUpdate 0 wEngine).2.1.comps 0).capture.getters)
    ∧ ((0 < wEngine.effectId ∧ (wEngine.effs 0).deleted = false ∧
      effUpdate 0 wEngine =
        (.ok (), (effUpdate 0 wEngine).2.1, (effUpdate 0 wEngine).2.2)) ∧
      ∀ g, ListenerId.eff 0 ∈ listenersOf (effUpdate 0 wEngine).2.1 g ↔
        g ∈ ((effUpdate 0 wEngine).2.1.effs 0).capture.getters) :=
  ⟨⟨⟨by decide, by rfl⟩,
    C1_edge_mirror_exactness.1 0 wEngine false _ _ (by decide) wEngine_comp_pre (by rfl)⟩,
   ⟨⟨by decide, by rfl, by rfl⟩,
    C1_edge_mirror_exactness.2 0 wEngine _ _ (by decide) (by rfl) wEngine_eff_pre (by rfl)⟩⟩

end LySignal

namespace LySignal

/-- Popping a derived node whose `_update` reports unchanged continues the
drain with the remaining stack unchanged: its listeners are not pushed. -/
lemma drain_comp_unchanged {fuel : Nat} {q : List ListenerId} {j : Nat}
    {s s' : Engine} {tr : List Event}
    (h : compUpdate j s = (.ok false, s', tr)) :
    drain (fuel + 1) (q ++ [ListenerId.comp j]) s =
      (drain fuel q s').map (fun x => (x.1, x.2.1, tr ++ x.2.2)) := by
  rw [drain]
  rw [List.getLast?_concat, List.dropLast_concat]
  dsimp only
  rw [h]
  dsimp only
  simp only [Bool.false_eq_true, if_false]
  cases hD : drain fuel q s' with
  | none => rfl
  | some x =>
    obtain ⟨r2, s2, tr2⟩ := x
    rfl

/-- C4: derived memoization.  A successful recompute of a derived signal
reports "unchanged" exactly when it leaves the committed value as it was; in
that case the drain loop does not push the node's listeners; and in every
successful recompute, changed or not, the dependency edges have been
refreshed to mirror the new capture. -/
theorem C4_derived_memoization :
    (∀ (j : Nat) (s : Engine) (ch : Bool) (s' : Engine) (tr : List Event),
      j < s.computedId →
      (∀ g, ListenerId.comp j ∈ listenersOf s g → g ∈ (s.comps j).capture.getters) →
      compUpdate j s = (.ok ch, s', tr) →
      (ch = false ↔ (s'.comps j).state = (s.comps j).state)
      ∧ ∀ g, ListenerId.comp j ∈ listenersOf s' g ↔ g ∈ (s'.comps j).capture.getters)
    ∧ (∀ (fuel : Nat) (q : List ListenerId) (j : Nat) (s s' : Engine) (tr : List Event),
      compUpdate j s = (.ok false, s', tr) →
      drain (fuel + 1) (q ++ [ListenerId.comp j]) s =
        (drain fuel q s').map (fun x => (x.1, x.2.1, tr ++ x.2.2))) :=
  ⟨fun _ _ _ _ _ hj hpre h =>
    ⟨(compUpdate_ok_facts hj hpre h).2, (compUpdate_ok_facts hj hpre h).1⟩,
   fun _ _ _ _ _ _ h => drain_comp_unchanged h⟩

/-- Witness for C4 at `wEngine` (recompute of the derived node yields the
committed value again, so it reports unchanged and pushes nothing). -/
theorem C4_witness :
    ((0 < wEngine.computedId ∧
      compUpdate 0 wEngine =
        (.ok false, (compUpdate 0 wEngine).2.1, (compUpdate 0 wEngine).2.2)) ∧
      ((false = false ↔
        ((compUpdate 0 wEngine).2.1.comps 0).state = (wEngine.comps 0).state)
      ∧ ∀ g, ListenerId.comp 0 ∈ listenersOf (compUpdate 0 wEngine).2.1 g ↔
          g ∈ ((compUpdate 0 wEngine).2.1.comps 0).capture.getters))
    ∧ drain 1 ([ListenerId.eff 0] ++ [ListenerId.comp 0]) wEngine =
        (drain 0 [ListenerId.eff 0] (compUpdate 0 wEngine).2.1).map
          (fun x => (x.1, x.2.1, (compUpdate 0 wEngine).2.2 ++ x.2.2)) :=
  ⟨⟨⟨by decide, by rfl⟩,
    C4_derived_memoization.1 0 wEngine false _ _ (by decide) wEngine_comp_pre (by rfl)⟩,
   C4_derived_memoization.2 0 [ListenerId.eff 0] 0 wEngine _ _ (by rfl)⟩

end LySignal

namespace LySignal

/-- C5: effect cleanup lifecycle.  Recomputing a live effect that holds a
cleanup runs that cleanup exactly once, strictly before the old edges are
unlinked and before the body reruns (the body trace contains no cleanup
invocation); removal runs the latest cleanup exactly once and sets the
deleted flag; and once deleted, a recompute attempt is a guarded no-op that
runs no cleanup, runs no body, and changes nothing. -/
theorem C5_effect_cleanup_lifecycle :
    (∀ (k : Nat) (s s' : Engine) (tr : List Event) (tok : Val),
      k < s.effectId → (s.effs k).deleted = false →
      (s.effs k).clear = tok → tok ≠ 0 →
      (∀ g, ListenerId.eff k ∈ listenersOf s g → g ∈ (s.effs k).capture.getters) →
      effUpdate k s = (.ok (), s', tr) →
      ∃ trB, tr = Event.cleanup tok :: Event.effUnlink k :: Event.effRun k :: trB
        ∧ ∀ t, Event.cleanup t ∉ trB)
    ∧ (∀ (k : Nat) (s : Engine) (tok : Val),
      (s.effs k).clear = tok → tok ≠ 0 →
      (effRemove k s).2 = [Event.cleanup tok]
      ∧ ((effRemove k s).1.effs k).deleted = true)
    ∧ (∀ (k : Nat) (s : Engine),
      (s.effs k).deleted = true → effUpdate k s = (.ok (), s, [])) := by
  refine ⟨?_, ?_, ?_⟩
  · intro k s s' tr tok hk hdel htok htok0 hpre h
    obtain ⟨_, ⟨trB, htr, hobs⟩, _⟩ := effUpdate_ok_facts hk hdel hpre h
    rw [htok] at htr
    rw [if_pos htok0] at htr
    refine ⟨trB, by simpa using htr, ?_⟩
    intro t hmem
    obtain ⟨v, hv⟩ := hobs _ hmem
    cases hv
  · intro k s tok htok htok0
    obtain ⟨htr, hdel, _⟩ := effRemove_facts k s
    rw [htok, if_pos htok0] at htr
    exact ⟨htr, hdel⟩
  · intro k s hdel
    exact effUpdate_deleted hdel

/-- Witness for C5 at `wEngine` (cleanup token 5). -/
theorem C5_witness :
    ((0 < wEngine.effectId ∧ (wEngine.effs 0).deleted = false ∧
        (wEngine.effs 0).clear = 5 ∧ (5 : Val) ≠ 0 ∧
        effUpdate 0 wEngine =
          (.ok (), (effUpdate 0 wEngine).2.1, (effUpdate 0 wEngine).2.2)) ∧
      ∃ trB, (effUpdate 0 wEngine).2.2 =
          Event.cleanup 5 :: Event.effUnlink 0 :: Event.effRun 0 :: trB
        ∧ ∀ t, Event.cleanup t ∉ trB)
    ∧ ((effRemove 0 wEngine).2 = [Event.cleanup 5]
        ∧ (((effRemove 0 wEngine).1.effs 0).deleted = true))
    ∧ effUpdate 0 (effRemove 0 wEngine).1 = (.ok (), (effRemove 0 wEngine).1, []) :=
  ⟨⟨⟨by decide, by rfl, by rfl, by decide, by rfl⟩,
    C5_effect_cleanup_lifecycle.1 0 wEngine _ _ 5 (by decide) (by rfl) (by rfl)
      (by decide) wEngine_eff_pre (by rfl)⟩,
   C5_effect_cleanup_lifecycle.2.1 0 wEngine 5 (by rfl) (by decide),
   C5_effect_cleanup_lifecycle.2.2 0 (effRemove 0 wEngine).1 (by rfl)⟩

end LySignal

namespace LySignal


/-- C6: at the failing input `computed(() => { throw })` evaluated from the
module's initial state, the thrown body propagates, `currentCapture` is
restored by `runCapture`'s `finally`, but the evaluation-mode global
`recursive` is left at `"computed"` rather than its pre-evaluation value
`false` (and the engine is then permanently poisoned: a later `ref`
construction throws the reentrancy `TypeError`).  The same holds for a
throwing effect body, which leaves the mode at `"effect"`. -/
theorem C6_mode_not_restored_on_throw :
    ((evalProg (Prog.newComp Prog.throwErr) initEngine).1 = .error .userError
      ∧ (evalProg (Prog.newComp Prog.throwErr) initEngine).2.1.currentCapture
          = initEngine.currentCapture
      ∧ initEngine.recursive = Mode.off
      ∧ (evalProg (Prog.newComp Prog.throwErr) initEngine).2.1.recursive
          = Mode.computedM)
    ∧ ((evalProg (Prog.newEff Prog.throwErr) initEngine).1 = .error .userError
      ∧ (evalProg (Prog.newEff Prog.throwErr) initEngine).2.1.recursive
          = Mode.effectM)
    ∧ (evalProg (Prog.newRef (Prog.ret 0))
        (evalProg (Prog.newComp Prog.throwErr) initEngine).2.1).1
        = .error (.typeError .refK .computedM) :=
  ⟨⟨rfl, rfl, rfl, rfl⟩, ⟨rfl, rfl⟩, rfl⟩

/-- C8 counterexample: constructing a leaf signal (or a derived signal)
inside an effect body evaluation is NOT permitted — it throws the
reentrancy `TypeError` — contradicting the claim that only mode
`"derived"` forbids it. -/
theorem C8_counterexample :
    initEngine.recursive = Mode.off
    ∧ (evalProg (Prog.newEff (Prog.newRef (Prog.ret 0))) initEngine).1
        = .error (.typeError .refK .effectM)
    ∧ (evalProg (Prog.newEff (Prog.newComp (Prog.ret 0))) initEngine).1
        = .error (.typeError .computedK .effectM) :=
  ⟨rfl, rfl, rfl⟩

/-- C8 (amended): inside an effect body evaluation (mode `"effect"`) only
nested effect construction is permitted; constructing a leaf or derived
signal there throws the reentrancy `TypeError`, exactly as mode
`"derived"` does. -/
theorem C8_amended_effect_mode_guard :
    (∀ (s : Engine) (v : Val), s.recursive = Mode.effectM →
      (evalProg (Prog.newRef (Prog.ret v)) s).1 = .error (.typeError .refK .effectM))
    ∧ (∀ (s : Engine) (body : Prog), s.recursive = Mode.effectM →
      (evalProg (Prog.newComp body) s).1 = .error (.typeError .computedK .effectM))
    ∧ (∀ (s : Engine) (v : Val), s.recursive = Mode.effectM →
      (evalProg (Prog.newEff (Prog.ret v)) s).1 = .ok s.effectId)
    ∧ (∀ (s : Engine) (v : Val), s.recursive = Mode.computedM →
      (evalProg (Prog.newRef (Prog.ret v)) s).1 = .error (.typeError .refK .computedM))
    ∧ (∀ (s : Engine) (body : Prog), s.recursive = Mode.computedM →
      (evalProg (Prog.newComp body) s).1 = .error (.typeError .computedK .computedM)) := by
  refine ⟨?_, ?_, ?_, ?_, ?_⟩
  · intro s v h
    simp [evalProg, assertRecursive, h]
  · intro s body h
    simp [evalProg, assertRecursive, h]
  · intro s v h
    simp [evalProg, assertRecursive, h]
  · intro s v h
    simp [evalProg, assertRecursive, h]
  · intro s body h
    simp [evalProg, assertRecursive, h]

/-- Witness for the amended C8 at concrete engines in each mode. -/
theorem C8_amended_witness :
    (({ initEngine with recursive := Mode.effectM } : Engine).recursive = Mode.effectM
      ∧ (evalProg (Prog.newRef (Prog.ret 0))
          { initEngine with recursive := Mode.effectM }).1
          = .error (.typeError .refK .effectM)
      ∧ (evalProg (Prog.newEff (Prog.ret 0))
          { initEngine with recursive := Mode.effectM }).1 = .ok 0)
    ∧ (({ initEngine with recursive := Mode.computedM } : Engine).recursive = Mode.computedM
      ∧ (evalProg (Prog.newComp (Prog.ret 0))
          { initEngine with recursive := Mode.computedM }).1
          = .error (.typeError .computedK .computedM)) :=
  ⟨⟨rfl,
    C8_amended_effect_mode_guard.1 { initEngine with recursive := Mode.effectM } 0 rfl,
    C8_amended_effect_mode_guard.2.2.1 { initEngine with recursive := Mode.effectM } 0 rfl⟩,
   ⟨rfl,
    C8_amended_effect_mode_guard.2.2.2.2 { initEngine with recursive := Mode.computedM }
      (Prog.ret 0) rfl⟩⟩

/-- C9 counterexample: a derived-signal body evaluation that constructs a
leaf signal and does NOT throw.  The derived signal `c9Body` is constructed
harmlessly (its construction-time run takes the else-branch); then leaf 0 is
written and the flush recomputes it.  During that recompute — a
derived-signal body evaluation — the body constructs a fresh leaf signal and
the flush completes without any error (`refId` goes from 1 to 2), because
`_update` never sets the evaluation mode. -/
theorem C9_counterexample :
    (evalProg c9Setup initEngine).1 = .ok 0
    ∧ (evalProg c9Setup initEngine).2.1.refId = 1
    ∧ (updateStates 3 c9State).map (fun x => x.1) = some (.ok ())
    ∧ (updateStates 3 c9State).map (fun x => x.2.1.refId) = some 2
    ∧ (updateStates 3 c9State).map (fun x => (x.2.1.comps 0).state) = some 1 :=
  ⟨rfl, rfl, rfl, rfl, rfl⟩

/-- C9 (amended): the recursion guard is a construction-time guard.
Constructing a leaf or derived signal synchronously inside the initial
(construction-time) evaluation of a derived-signal body throws the
reentrancy `TypeError` immediately, and constructing an effect inside an
effect body evaluation succeeds; during scheduler recomputes the mode
global is `false`, so the guard is inactive there. -/
theorem C9_amended_construction_guard :
    (∀ (s : Engine) (k : Prog), s.recursive = Mode.off →
      (evalProg (Prog.newComp (Prog.seq (Prog.newRef (Prog.ret 0)) k)) s).1
        = .error (.typeError .refK .computedM))
    ∧ (∀ (s : Engine) (k : Prog), s.recursive = Mode.off →
      (evalProg (Prog.newComp (Prog.seq (Prog.newComp k) (Prog.ret 0))) s).1
        = .error (.typeError .computedK .computedM))
    ∧ (∀ (s : Engine) (v : Val), s.recursive = Mode.off →
      (evalProg (Prog.newEff (Prog.seq (Prog.newEff (Prog.ret v)) (Prog.ret 0))) s).1
        = .ok s.effectId) := by
  refine ⟨?_, ?_, ?_⟩
  · intro s k h
    simp [evalProg, assertRecursive, h]
  · intro s k h
    simp [evalProg, assertRecursive, h]
  · intro s v h
    simp [evalProg, assertRecursive, h]

/-- Witness for the amended C9 at the initial engine. -/
theorem C9_amended_witness :
    (initEngine.recursive = Mode.off
      ∧ (evalProg (Prog.newComp (Prog.seq (Prog.newRef (Prog.ret 0)) (Prog.ret 3)))
          initEngine).1 = .error (.typeError .refK .computedM))
    ∧ (evalProg (Prog.newEff (Prog.seq (Prog.newEff (Prog.ret 0)) (Prog.ret 0)))
        initEngine).1 = .ok 0 :=
  ⟨⟨rfl, C9_amended_construction_guard.1 initEngine (Prog.ret 3) rfl⟩,
   C9_amended_construction_guard.2.2 initEngine 0 rfl⟩

end LySignal

namespace LySignal

lemma enqueueUpdate_dirty (i : Nat) (s : Engine) :
    (enqueueUpdate i s).dirtyStates = addSet i s.dirtyStates := by
  unfold enqueueUpdate
  split <;> rfl

lemma refSetValue_hit {i : Nat} {v : Val} {s : Engine} (h : v ≠ (s.refs i).state) :
    refSetValue i v s =
      enqueueUpdate i (setRef i { s.refs i with pending := v } (capAddSetter i s)) := by
  unfold refSetValue
  rw [if_pos h]

lemma refSetValue_miss {i : Nat} {v : Val} {s : Engine} (h : ¬v ≠ (s.refs i).state) :
    refSetValue i v s = capAddSetter i s := by
  unfold refSetValue
  rw [if_neg h]

/-- `ComputedState._update` never commits a leaf: it can only stage pending
writes; committed leaf values and the ref id counter are untouched for
already-allocated leaves, and its trace contains no commit event. -/
lemma compUpdate_preserve {j : Nat} {s : Engine} {r : Except Err Bool}
    {s' : Engine} {tr : List Event} (h : compUpdate j s = (r, s', tr)) :
    s.refId ≤ s'.refId
    ∧ (∀ i, i < s.refId → (s'.refs i).state = (s.refs i).state)
    ∧ ∀ e ∈ tr, ∀ i2 ch, e ≠ Event.commitRef i2 ch := by
  simp only [compUpdate] at h
  rcases hR : runCaptureE (s.comps j).fn
      (unlinkAll (s.comps j).capture.getters (ListenerId.comp j) s)
    with ⟨r0, cap, s2, trR⟩
  rw [hR] at h
  obtain ⟨hP, hobs, _⟩ := runCaptureE_inv _ _ _ _ _ _ hR
  have hle : s.refId ≤ s2.refId := by
    have := hP.refIdLe
    rwa [unlinkAll_refId] at this
  have hst : ∀ i, i < s.refId → (s2.refs i).state = (s.refs i).state := by
    intro i hi
    rw [hP.refState i (by rwa [unlinkAll_refId]), unlinkAll_refs_state]
  have hnc : ∀ e ∈ trR, ∀ i2 ch, e ≠ Event.commitRef i2 ch := by
    intro e he i2 ch
    obtain ⟨v, rfl⟩ := hobs e he
    simp
  cases r0 with
  | error e =>
    dsimp only at h
    simp only [Prod.mk.injEq] at h
    obtain ⟨rfl, rfl, rfl⟩ := h
    exact ⟨hle, hst, hnc⟩
  | ok v =>
    dsimp only at h
    split at h <;> simp only [Prod.mk.injEq] at h <;> obtain ⟨rfl, rfl, rfl⟩ := h
    · refine ⟨?_, ?_, ?_⟩
      · rw [linkAll_refId]
        exact hle
      · intro i hi
        rw [linkAll_refs_state]
        exact hst i hi
      · intro e he i2 ch
        rcases List.mem_append.mp he with he | he
        · exact hnc e he i2 ch
        · simp only [List.mem_singleton] at he
          subst he
          simp
    · refine ⟨?_, ?_, ?_⟩
      · show s.refId ≤ (linkAll _ _ _).refId
        rw [linkAll_refId]
        exact hle
      · intro i hi
        show ((linkAll _ _ _).refs i).state = _
        rw [linkAll_refs_state]
        exact hst i hi
      · intro e he i2 ch
        rcases List.mem_append.mp he with he | he
        · exact hnc e he i2 ch
        · simp only [List.mem_singleton] at he
          subst he
          simp

/-- `EffectState._update` never commits a leaf either. -/
lemma effUpdate_preserve {k : Nat} {s : Engine} {r : Except Err Unit}
    {s' : Engine} {tr : List Event} (h : effUpdate k s = (r, s', tr)) :
    s.refId ≤ s'.refId
    ∧ (∀ i, i < s.refId → (s'.refs i).state = (s.refs i).state)
    ∧ ∀ e ∈ tr, ∀ i2 ch, e ≠ Event.commitRef i2 ch := by
  simp only [effUpdate] at h
  split at h
  · simp only [Prod.mk.injEq] at h
    obtain ⟨rfl, rfl, rfl⟩ := h
    exact ⟨le_refl _, fun _ _ => rfl, by simp⟩
  · rcases hR : runCaptureE (s.effs k).fn
        (unlinkAll (s.effs k).capture.getters (ListenerId.eff k) s)
      with ⟨r0, cap, s2, trR⟩
    rw [hR] at h
    obtain ⟨hP, hobs, _⟩ := runCaptureE_inv _ _ _ _ _ _ hR
    have hle : s.refId ≤ s2.refId := by
      have := hP.refIdLe
      rwa [unlinkAll_refId] at this
    have hst : ∀ i, i < s.refId → (s2.refs i).state = (s.refs i).state := by
      intro i hi
      rw [hP.refState i (by rwa [unlinkAll_refId]), unlinkAll_refs_state]
    have hmid : ∀ e ∈ (if (s.effs k).clear ≠ 0 then [Event.cleanup (s.effs k).clear] else [])
        ++ [Event.effUnlink k, Event.effRun k] ++ trR, ∀ i2 ch, e ≠ Event.commitRef i2 ch := by
      intro e he i2 ch
      rcases List.mem_append.mp he with he | he
      · rcases List.mem_append.mp he with he | he
        · split at he
          · simp only [List.mem_singleton] at he
            subst he
            simp
          · simp at he
        · rcases List.mem_cons.mp he with rfl | he
          · simp
          · simp only [List.mem_singleton] at he
            subst he
            simp
      · obtain ⟨v, rfl⟩ := hobs e he
        simp
    cases r0 with
    | error e =>
      dsimp only at h
      simp only [Prod.mk.injEq] at h
      obtain ⟨rfl, rfl, rfl⟩ := h
      exact ⟨hle, hst, hmid⟩
    | ok v =>
      dsimp only at h
      simp only [Prod.mk.injEq] at h
      obtain ⟨rfl, rfl⟩ := h.2
      refine ⟨?_, ?_, hmid⟩
      · rw [linkAll_refId]
        exact hle
      · intro i hi
        rw [linkAll_refs_state]
        exact hst i hi

/-- The work-list drain never commits a leaf signal: committed leaf values
are unchanged across it and its trace contains no commit event. -/
lemma drain_preserve :
    ∀ (fuel : Nat) (q : List ListenerId) (s0 : Engine) (rr : Except Err Unit)
      (s' : Engine) (tr : List Event),
      drain fuel q s0 = some (rr, s', tr) →
      s0.refId ≤ s'.refId
      ∧ (∀ i, i < s0.refId → (s'.refs i).state = (s0.refs i).state)
      ∧ ∀ e ∈ tr, ∀ i2 ch, e ≠ Event.commitRef i2 ch := by
  intro fuel
  induction fuel with
  | zero =>
    intro q s0 rr s' tr h
    simp only [drain] at h
    split at h
    · simp only [Option.some.injEq, Prod.mk.injEq] at h
      obtain ⟨rfl, rfl, rfl⟩ := h
      exact ⟨le_refl _, fun _ _ => rfl, by simp⟩
    · cases h
  | succ fuel ih =>
    intro q s0 rr s' tr h
    simp only [drain] at h
    rcases hL : q.getLast? with _ | node
    · rw [hL] at h
      dsimp only at h
      simp only [Option.some.injEq, Prod.mk.injEq] at h
      obtain ⟨rfl, rfl, rfl⟩ := h
      exact ⟨le_refl _, fun _ _ => rfl, by simp⟩
    · rw [hL] at h
      cases node with
      | comp j =>
        dsimp only at h
        rcases hC : compUpdate j s0 with ⟨rc, s1, tr1⟩
        rw [hC] at h
        obtain ⟨hle1, hst1, hnc1⟩ := compUpdate_preserve hC
        cases rc with
        | error e =>
          dsimp only at h
          simp only [Option.some.injEq, Prod.mk.injEq] at h
          obtain ⟨rfl, rfl, rfl⟩ := h
          exact ⟨hle1, hst1, hnc1⟩
        | ok ch =>
          dsimp only at h
          rcases hD : drain fuel (if ch then q.dropLast ++ (s1.comps j).listeners
              else q.dropLast) s1 with _ | x
          · rw [hD] at h
            cases h
          · obtain ⟨r2, s2, tr2⟩ := x
            rw [hD] at h
            simp only [Option.some.injEq, Prod.mk.injEq] at h
            obtain ⟨rfl, rfl, rfl⟩ := h
            obtain ⟨hle2, hst2, hnc2⟩ := ih _ _ _ _ _ hD
            refine ⟨le_trans hle1 hle2, ?_, ?_⟩
            · intro i hi
              rw [hst2 i (lt_of_lt_of_le hi hle1), hst1 i hi]
            · intro e he i2 c2
              rcases List.mem_append.mp he with he | he
              · exact hnc1 e he i2 c2
              · exact hnc2 e he i2 c2
      | eff j =>
        dsimp only at h
        rcases hC : effUpdate j s0 with ⟨rc, s1, tr1⟩
        rw [hC] at h
        obtain ⟨hle1, hst1, hnc1⟩ := effUpdate_preserve hC
        cases rc with
        | error e =>
          dsimp only at h
          simp only [Option.some.injEq, Prod.mk.injEq] at h
          obtain ⟨rfl, rfl, rfl⟩ := h
          exact ⟨hle1, hst1, hnc1⟩
        | ok u =>
          dsimp only at h
          rcases hD : drain fuel q.dropLast s1 with _ | x
          · rw [hD] at h
            cases h
          · obtain ⟨r2, s2, tr2⟩ := x
            rw [hD] at h
            simp only [Option.some.injEq, Prod.mk.injEq] at h
            obtain ⟨rfl, rfl, rfl⟩ := h
            obtain ⟨hle2, hst2, hnc2⟩ := ih _ _ _ _ _ hD
            refine ⟨le_trans hle1 hle2, ?_, ?_⟩
            · intro i hi
              rw [hst2 i (lt_of_lt_of_le hi hle1), hst1 i hi]
            · intro e he i2 c2
              rcases List.mem_append.mp he with he | he
              · exact hnc1 e he i2 c2
              · exact hnc2 e he i2 c2

end LySignal


namespace LySignal


lemma refUpdate_hit {i : Nat} {s : Engine}
    (hne : ¬(s.refs i).state = (s.refs i).pending) :
    refUpdate i s = (true, setRef i (commitRec (s.refs i)) s) := by
  unfold refUpdate
  rw [if_neg hne]
  rfl

lemma clearDirty_refs (s : Engine) : (clearDirty s).refs = s.refs := rfl

/-- One-element commit phase: a dirty leaf whose pending differs from its
committed value is committed exactly once, with a single commit event. -/
lemma commitLeaves_single {i : Nat} {s3 : Engine}
    (hne : ¬(s3.refs i).state = (s3.refs i).pending) :
    commitLeaves [i] s3 =
      (((setRef i (commitRec (s3.refs i)) s3).refs i).listeners,
       setRef i (commitRec (s3.refs i)) s3,
       [Event.commitRef i true]) := by
  simp only [commitLeaves, List.foldl]
  rw [refUpdate_hit hne]
  simp

/-- C3: write coalescing.  Writing `a` then `b` to a clean leaf signal (both
distinct from the committed value and from each other) leaves the committed
value untouched in between, stages only `b`, marks the leaf dirty exactly
once, and the commit phase of the next flush round performs exactly one
commit, committing `b`; moreover the ensuing drain never commits a leaf and
never changes a committed leaf value, so listeners recomputed during the
flush observe `b` only. -/
theorem C3_write_coalescing :
    (∀ (i : Nat) (s : Engine) (a b : Val),
      (s.refs i).pending = (s.refs i).state →
      s.dirtyStates = [] →
      a ≠ (s.refs i).state → b ≠ (s.refs i).state → a ≠ b →
      ((refSetValue i a s).refs i).state = (s.refs i).state
      ∧ ((refSetValue i b (refSetValue i a s)).refs i).state = (s.refs i).state
      ∧ ((refSetValue i b (refSetValue i a s)).refs i).pending = b
      ∧ (refSetValue i b (refSetValue i a s)).dirtyStates = [i]
      ∧ (commitLeaves [i] (clearDirty (refSetValue i b (refSetValue i a s)))).2.2
          = [Event.commitRef i true]
      ∧ ((commitLeaves [i]
          (clearDirty (refSetValue i b (refSetValue i a s)))).2.1.refs i).state = b)
    ∧ (∀ (fuel : Nat) (q : List ListenerId) (s0 : Engine) (rr : Except Err Unit)
        (s' : Engine) (tr : List Event),
        drain fuel q s0 = some (rr, s', tr) →
        (∀ i, i < s0.refId → (s'.refs i).state = (s0.refs i).state)
        ∧ ∀ e ∈ tr, ∀ i2 ch, e ≠ Event.commitRef i2 ch) := by
  constructor
  · intro i s a b hpv hd ha hb hab
    have hs1state : ((refSetValue i a s).refs i).state = (s.refs i).state :=
      refSetValue_refs_state i a s i
    have hb1 : b ≠ ((refSetValue i a s).refs i).state := by
      rw [hs1state]
      exact hb
    have hs2state : ((refSetValue i b (refSetValue i a s)).refs i).state = (s.refs i).state := by
      rw [refSetValue_refs_state, hs1state]
    have hs2pending : ((refSetValue i b (refSetValue i a s)).refs i).pending = b := by
      rw [refSetValue_hit hb1, enqueueUpdate_refs, setRef_refs_self]
    have hs1dirty : (refSetValue i a s).dirtyStates = [i] := by
      rw [refSetValue_hit ha, enqueueUpdate_dirty]
      show addSet i s.dirtyStates = [i]
      rw [hd]
      simp [addSet]
    have hs2dirty : (refSetValue i b (refSetValue i a s)).dirtyStates = [i] := by
      rw [refSetValue_hit hb1, enqueueUpdate_dirty]
      show addSet i (refSetValue i a s).dirtyStates = [i]
      rw [hs1dirty]
      simp [addSet]
    have hne : ¬((clearDirty (refSetValue i b (refSetValue i a s))).refs i).state
        = ((clearDirty (refSetValue i b (refSetValue i a s))).refs i).pending := by
      rw [clearDirty_refs, hs2state, hs2pending]
      exact fun hcb => hb hcb.symm
    refine ⟨hs1state, hs2state, hs2pending, hs2dirty, ?_, ?_⟩
    · rw [commitLeaves_single hne]
    · rw [commitLeaves_single hne, setRef_refs_self]
      show ((clearDirty (refSetValue i b (refSetValue i a s))).refs i).pending = b
      rw [clearDirty_refs]
      exact hs2pending
  · intro fuel q s0 rr s' tr h
    obtain ⟨_, hst, hnc⟩ := drain_preserve fuel q s0 rr s' tr h
    exact ⟨hst, hnc⟩

/-- Witness for C3 at `wEngine` with writes 2 then 3 over committed value 1. -/
theorem C3_witness :
    (((wEngine.refs 0).pending = (wEngine.refs 0).state ∧
        wEngine.dirtyStates = [] ∧ (2 : Val) ≠ (wEngine.refs 0).state ∧
        (3 : Val) ≠ (wEngine.refs 0).state ∧ (2 : Val) ≠ 3) ∧
      ((refSetValue 0 3 (refSetValue 0 2 wEngine)).refs 0).pending = 3
      ∧ (refSetValue 0 3 (refSetValue 0 2 wEngine)).dirtyStates = [0]
      ∧ (commitLeaves [0] (clearDirty (refSetValue 0 3 (refSetValue 0 2 wEngine)))).2.2
          = [Event.commitRef 0 true]
      ∧ ((commitLeaves [0]
          (clearDirty (refSetValue 0 3 (refSetValue 0 2 wEngine)))).2.1.refs 0).state = 3)
    ∧ (drain 1 [] wEngine = some (.ok (), wEngine, []) ∧
        ∀ e ∈ ([] : List Event), ∀ i2 ch, e ≠ Event.commitRef i2 ch) := by
  have h := C3_write_coalescing.1 0 wEngine 2 3 (by decide) (by rfl) (by decide)
    (by decide) (by decide)
  have h2 := C3_write_coalescing.2 1 [] wEngine (.ok ()) wEngine [] (by rfl)
  exact ⟨⟨⟨by decide, by rfl, by decide, by decide, by decide⟩,
    h.2.2.1, h.2.2.2.1, h.2.2.2.2.1, h.2.2.2.2.2⟩, ⟨by rfl, h2.2⟩⟩

/-- C10: writing `a` (≠ committed `c`) and then writing `c` back before the
flush leaves the staged `a` in place: the second write is an
equal-to-committed no-op, the leaf stays dirty, and the flush commits `a` —
the last write before the flush is not the value observed. -/
theorem C10_write_back_committed_value :
    ∀ (i : Nat) (s : Engine) (a : Val),
      (s.refs i).pending = (s.refs i).state →
      s.dirtyStates = [] →
      a ≠ (s.refs i).state →
      ((refSetValue i (s.refs i).state (refSetValue i a s)).refs i).pending = a
      ∧ ((refSetValue i (s.refs i).state (refSetValue i a s)).refs i).state
          = (s.refs i).state
      ∧ (refSetValue i (s.refs i).state (refSetValue i a s)).dirtyStates = [i]
      ∧ (refUpdate i (refSetValue i (s.refs i).state (refSetValue i a s))).1 = true
      ∧ ((refUpdate i (refSetValue i (s.refs i).state
          (refSetValue i a s))).2.refs i).state = a := by
  intro i s a hpv hd ha
  have hs1state : ((refSetValue i a s).refs i).state = (s.refs i).state :=
    refSetValue_refs_state i a s i
  have hs1pending : ((refSetValue i a s).refs i).pending = a := by
    rw [refSetValue_hit ha, enqueueUpdate_refs, setRef_refs_self]
  have hmiss : ¬(s.refs i).state ≠ ((refSetValue i a s).refs i).state := by
    rw [hs1state]
    exact fun hc => hc rfl
  have hs2 : refSetValue i (s.refs i).state (refSetValue i a s)
      = capAddSetter i (refSetValue i a s) := refSetValue_miss hmiss
  have hs2pending : ((refSetValue i (s.refs i).state
      (refSetValue i a s)).refs i).pending = a := by
    rw [hs2]
    exact hs1pending
  have hs2state : ((refSetValue i (s.refs i).state (refSetValue i a s)).refs i).state
      = (s.refs i).state := by
    rw [hs2]
    exact hs1state
  have hs1dirty : (refSetValue i a s).dirtyStates = [i] := by
    rw [refSetValue_hit ha, enqueueUpdate_dirty]
    show addSet i s.dirtyStates = [i]
    rw [hd]
    simp [addSet]
  have hs2dirty : (refSetValue i (s.refs i).state
      (refSetValue i a s)).dirtyStates = [i] := by
    rw [hs2]
    exact hs1dirty
  have hne : ¬((refSetValue i (s.refs i).state (refSetValue i a s)).refs i).state
      = ((refSetValue i (s.refs i).state (refSetValue i a s)).refs i).pending := by
    rw [hs2state, hs2pending]
    exact fun hc => ha hc.symm
  refine ⟨hs2pending, hs2state, hs2dirty, ?_, ?_⟩
  · rw [refUpdate_hit hne]
  · rw [refUpdate_hit hne]
    show ((setRef i _ _).refs i).state = a
    rw [setRef_refs_self]
    exact hs2pending

/-- Witness for C10 at `wEngine`: write 2, then write the committed value 1
back; the flush still commits 2. -/
theorem C10_witness :
    (((wEngine.refs 0).pending = (wEngine.refs 0).state ∧
        wEngine.dirtyStates = [] ∧ (2 : Val) ≠ (wEngine.refs 0).state) ∧
      ((refSetValue 0 (wEngine.refs 0).state (refSetValue 0 2 wEngine)).refs 0).pending = 2
      ∧ (refSetValue 0 (wEngine.refs 0).state (refSetValue 0 2 wEngine)).dirtyStates = [0]
      ∧ (refUpdate 0 (refSetValue 0 (wEngine.refs 0).state (refSetValue 0 2 wEngine))).1 = true
      ∧ ((refUpdate 0 (refSetValue 0 (wEngine.refs 0).state
          (refSetValue 0 2 wEngine))).2.refs 0).state = 2) := by
  have h := C10_write_back_committed_value 0 wEngine 2 (by decide) (by rfl) (by decide)
  exact ⟨⟨by decide, by rfl, by decide⟩, h.1, h.2.2.1, h.2.2.2.1, h.2.2.2.2⟩

end LySignal

namespace LySignal


lemma enqueueUpdate_currentRefs (i : Nat) (s : Engine) :
    (enqueueUpdate i s).currentRefs = s.currentRefs := by
  unfold enqueueUpdate
  split <;> rfl

lemma enqueueUpdate_currentComputes (i : Nat) (s : Engine) :
    (enqueueUpdate i s).currentComputes = s.currentComputes := by
  unfold enqueueUpdate
  split <;> rfl

lemma enqueueUpdate_currentEffects (i : Nat) (s : Engine) :
    (enqueueUpdate i s).currentEffects = s.currentEffects := by
  unfold enqueueUpdate
  split <;> rfl

lemma refSetValue_currentRefs (i : Nat) (v : Val) (s : Engine) :
    (refSetValue i v s).currentRefs = s.currentRefs := by
  unfold refSetValue
  split
  · rw [enqueueUpdate_currentRefs]; rfl
  · rfl

lemma refSetValue_currentComputes (i : Nat) (v : Val) (s : Engine) :
    (refSetValue i v s).currentComputes = s.currentComputes := by
  unfold refSetValue
  split
  · rw [enqueueUpdate_currentComputes]; rfl
  · rfl

lemma refSetValue_currentEffects (i : Nat) (v : Val) (s : Engine) :
    (refSetValue i v s).currentEffects = s.currentEffects := by
  unfold refSetValue
  split
  · rw [enqueueUpdate_currentEffects]; rfl
  · rfl

lemma linkAll_currentRefs (gs : List GetterId) (x : ListenerId) (s : Engine) :
    (linkAll gs x s).currentRefs = s.currentRefs := by
  induction gs generalizing s with
  | nil => rfl
  | cons a t ih =>
    refine (ih _).trans ?_
    cases a <;> rfl

lemma linkAll_currentComputes (gs : List GetterId) (x : ListenerId) (s : Engine) :
    (linkAll gs x s).currentComputes = s.currentComputes := by
  induction gs generalizing s with
  | nil => rfl
  | cons a t ih =>
    refine (ih _).trans ?_
    cases a <;> rfl

lemma linkAll_currentEffects (gs : List GetterId) (x : ListenerId) (s : Engine) :
    (linkAll gs x s).currentEffects = s.currentEffects := by
  induction gs generalizing s with
  | nil => rfl
  | cons a t ih =>
    refine (ih _).trans ?_
    cases a <;> rfl

/-- During a derived-signal body evaluation (mode `"computed"`) that calls no
`collect`, every construction throws, so a successful evaluation allocates
nothing, keeps the registration lists, and keeps the mode. -/
lemma evalProg_computedM (p : Prog) :
    ∀ (s : Engine) (v : Val) (s1 : Engine) (tr : List Event),
      noCollect p = true → s.recursive = Mode.computedM →
      evalProg p s = (.ok v, s1, tr) →
      s1.refId = s.refId ∧ s1.computedId = s.computedId ∧ s1.effectId = s.effectId
      ∧ s1.currentRefs = s.currentRefs ∧ s1.currentComputes = s.currentComputes
      ∧ s1.currentEffects = s.currentEffects ∧ s1.recursive = s.recursive := by
  induction p with
  | ret w =>
    intro s v s1 tr _ hm h
    simp only [evalProg, Prod.mk.injEq] at h
    obtain ⟨rfl, rfl, rfl⟩ := h.2
    exact ⟨rfl, rfl, rfl, rfl, rfl, rfl, rfl⟩
  | seq a b iha ihb =>
    intro s v s1 tr hnc hm h
    simp only [noCollect, Bool.and_eq_true] at hnc
    simp only [evalProg] at h
    rcases hA : evalProg a s with ⟨rA, sA, trA⟩
    rw [hA] at h
    cases rA with
    | error e => simp at h
    | ok w =>
      dsimp only at h
      rcases hB : evalProg b sA with ⟨rB, sB, trB⟩
      rw [hB] at h
      simp only [Prod.mk.injEq] at h
      obtain ⟨rfl, rfl, rfl⟩ := h
      obtain ⟨a1, a2, a3, a4, a5, a6, a7⟩ := iha s w sA trA hnc.1 hm hA
      obtain ⟨b1, b2, b3, b4, b5, b6, b7⟩ := ihb sA v sB trB hnc.2 (a7.trans hm) hB
      exact ⟨b1.trans a1, b2.trans a2, b3.trans a3, b4.trans a4, b5.trans a5,
        b6.trans a6, b7.trans a7⟩
  | readRef i =>
    intro s v s1 tr _ hm h
    simp only [evalProg, Prod.mk.injEq] at h
    obtain ⟨rfl, rfl, rfl⟩ := h.2
    exact ⟨rfl, rfl, rfl, rfl, rfl, rfl, rfl⟩
  | readComp i =>
    intro s v s1 tr _ hm h
    simp only [evalProg, Prod.mk.injEq] at h
    obtain ⟨rfl, rfl, rfl⟩ := h.2
    exact ⟨rfl, rfl, rfl, rfl, rfl, rfl, rfl⟩
  | writeRef i rhs ih =>
    intro s v s1 tr hnc hm h
    simp only [noCollect] at hnc
    simp only [evalProg] at h
    rcases hA : evalProg rhs s with ⟨rA, sA, trA⟩
    rw [hA] at h
    cases rA with
    | error e => simp at h
    | ok w =>
      dsimp only at h
      simp only [Prod.mk.injEq] at h
      obtain ⟨-, rfl, rfl⟩ := h
      obtain ⟨a1, a2, a3, a4, a5, a6, a7⟩ := ih s w sA trA hnc hm hA
      refine ⟨(refSetValue_refId _ _ _).trans a1, (refSetValue_computedId _ _ _).trans a2,
        (refSetValue_effectId _ _ _).trans a3, (refSetValue_currentRefs _ _ _).trans a4,
        (refSetValue_currentComputes _ _ _).trans a5,
        (refSetValue_currentEffects _ _ _).trans a6,
        (refSetValue_recursive _ _ _).trans a7⟩
  | iteP c t e ihc iht ihe =>
    intro s v s1 tr hnc hm h
    simp only [noCollect, Bool.and_eq_true] at hnc
    simp only [evalProg] at h
    rcases hA : evalProg c s with ⟨rA, sA, trA⟩
    rw [hA] at h
    cases rA with
    | error er => simp at h
    | ok w =>
      dsimp only at h
      obtain ⟨a1, a2, a3, a4, a5, a6, a7⟩ := ihc s w sA trA hnc.1.1 hm hA
      by_cases hw : w = 0
      · rw [if_pos hw] at h
        rcases hB : evalProg e sA with ⟨rB, sB, trB⟩
        rw [hB] at h
        simp only [Prod.mk.injEq] at h
        obtain ⟨rfl, rfl, rfl⟩ := h
        obtain ⟨b1, b2, b3, b4, b5, b6, b7⟩ := ihe sA v sB trB hnc.2 (a7.trans hm) hB
        exact ⟨b1.trans a1, b2.trans a2, b3.trans a3, b4.trans a4, b5.trans a5,
          b6.trans a6, b7.trans a7⟩
      · rw [if_neg hw] at h
        rcases hB : evalProg t sA with ⟨rB, sB, trB⟩
        rw [hB] at h
        simp only [Prod.mk.injEq] at h
        obtain ⟨rfl, rfl, rfl⟩ := h
        obtain ⟨b1, b2, b3, b4, b5, b6, b7⟩ := iht sA v sB trB hnc.1.2 (a7.trans hm) hB
        exact ⟨b1.trans a1, b2.trans a2, b3.trans a3, b4.trans a4, b5.trans a5,
          b6.trans a6, b7.trans a7⟩
  | app1 f a ih =>
    intro s v s1 tr hnc hm h
    simp only [noCollect] at hnc
    simp only [evalProg] at h
    rcases hA : evalProg a s with ⟨rA, sA, trA⟩
    rw [hA] at h
    cases rA with
    | error e => simp at h
    | ok w =>
      dsimp only at h
      simp only [Prod.mk.injEq] at h
      obtain ⟨-, rfl, rfl⟩ := h
      exact ih s w sA trA hnc hm hA
  | emit a ih =>
    intro s v s1 tr hnc hm h
    simp only [noCollect] at hnc
    simp only [evalProg] at h
    rcases hA : evalProg a s with ⟨rA, sA, trA⟩
    rw [hA] at h
    cases rA with
    | error e => simp at h
    | ok w =>
      dsimp only at h
      simp only [Prod.mk.injEq] at h
      obtain ⟨-, rfl, rfl⟩ := h
      exact ih s w sA trA hnc hm hA
  | throwErr =>
    intro s v s1 tr _ _ h
    simp only [evalProg, Prod.mk.injEq] at h
    exact absurd h.1 (by simp)
  | newRef initArg ih =>
    intro s v s1 tr hnc hm h
    simp only [noCollect] at hnc
    simp only [evalProg] at h
    rcases hA : evalProg initArg s with ⟨rA, sA, trA⟩
    rw [hA] at h
    cases rA with
    | error e => simp at h
    | ok w =>
      dsimp only at h
      obtain ⟨a1, a2, a3, a4, a5, a6, a7⟩ := ih s w sA trA hnc hm hA
      have hAs : assertRecursive .refK sA.recursive
          = some (.typeError .refK Mode.computedM) := by
        rw [a7.trans hm]
        rfl
      rw [hAs] at h
      simp at h
  | newComp body ih =>
    intro s v s1 tr hnc hm h
    simp only [evalProg] at h
    have hAs : assertRecursive .computedK s.recursive
        = some (.typeError .computedK Mode.computedM) := by
      rw [hm]
      rfl
    rw [hAs] at h
    simp at h
  | newEff body ih =>
    intro s v s1 tr hnc hm h
    simp only [evalProg] at h
    have hAs : assertRecursive .effectK s.recursive
        = some (.typeError .effectK Mode.computedM) := by
      rw [hm]
      rfl
    rw [hAs] at h
    simp at h
  | collectP body ih =>
    intro s v s1 tr hnc hm h
    simp [noCollect] at hnc

end LySignal

namespace LySignal


lemma range'_chain {a b c : Nat} (h1 : a ≤ b) (h2 : b ≤ c) :
    List.range' a (b - a) ++ List.range' b (c - b) = List.range' a (c - a) := by
  have h3 := List.range'_append_1 a (b - a) (c - b)
  rw [Nat.add_sub_cancel' h1] at h3
  rw [h3]
  congr 1
  omega

lemma RegTrack.of_eqs {s s1 : Engine}
    (h1 : s1.currentRefs = s.currentRefs) (h2 : s1.refId = s.refId)
    (h3 : s1.currentComputes = s.currentComputes) (h4 : s1.computedId = s.computedId)
    (h5 : s1.currentEffects = s.currentEffects) (h6 : s1.effectId = s.effectId) :
    RegTrack s s1 := by
  refine ⟨?_, ?_, ?_⟩
  · intro lr hlr
    rw [h1, hlr, h2]
    simp
  · intro lc hlc
    rw [h3, hlc, h4]
    simp
  · intro le hle
    refine ⟨[], by rw [h5, hle]; simp, ?_⟩
    rw [h6]
    simp

lemma RegTrack.chain {s sA s1 : Engine}
    (m1 : s.refId ≤ sA.refId) (m2 : s.computedId ≤ sA.computedId)
    (m3 : s.effectId ≤ sA.effectId)
    (m4 : sA.refId ≤ s1.refId) (m5 : sA.computedId ≤ s1.computedId)
    (m6 : sA.effectId ≤ s1.effectId)
    (h1 : RegTrack s sA) (h2 : RegTrack sA s1) : RegTrack s s1 := by
  refine ⟨?_, ?_, ?_⟩
  · intro lr hlr
    have hB := h2.1 _ (h1.1 lr hlr)
    rw [hB, List.append_assoc, range'_chain m1 m4]
  · intro lc hlc
    have hB := h2.2.1 _ (h1.2.1 lc hlc)
    rw [hB, List.append_assoc, range'_chain m2 m5]
  · intro le hle
    obtain ⟨l1, he1, hp1⟩ := h1.2.2 le hle
    obtain ⟨l2, he2, hp2⟩ := h2.2.2 _ he1
    refine ⟨l1 ++ l2, by rw [he2, List.append_assoc], ?_⟩
    rw [← range'_chain m3 m6]
    exact hp1.append hp2

/-- RegTrack step for the tail of a `ref` construction: push the new ref id
onto the active list and bump the counter. -/
lemma RegTrack.refPush {s sA X : Engine} (h : RegTrack s sA)
    (hmr : s.refId ≤ sA.refId)
    (h1 : X.currentRefs = sA.currentRefs.map (fun l => l ++ [sA.refId]))
    (h2 : X.refId = sA.refId + 1)
    (h3 : X.currentComputes = sA.currentComputes) (h4 : X.computedId = sA.computedId)
    (h5 : X.currentEffects = sA.currentEffects) (h6 : X.effectId = sA.effectId) :
    RegTrack s X := by
  refine ⟨?_, ?_, ?_⟩
  · intro lr hlr
    have hA := h.1 lr hlr
    rw [h1, hA, h2]
    show some _ = some _
    congr 1
    dsimp only
    rw [List.append_assoc]
    congr 1
    have hd : sA.refId + 1 - s.refId = (sA.refId - s.refId) + 1 := by omega
    rw [hd, List.range'_1_concat, Nat.add_sub_cancel' hmr]
  · intro lc hlc
    rw [h3, h4]
    exact h.2.1 lc hlc
  · intro le hle
    obtain ⟨ln, he, hp⟩ := h.2.2 le hle
    refine ⟨ln, by rw [h5]; exact he, ?_⟩
    rw [h6]
    exact hp

end LySignal


namespace LySignal

lemma setComp_currentRefs (j : Nat) (c : CompSt) (s : Engine) :
    (setComp j c s).currentRefs = s.currentRefs := rfl

lemma setComp_currentComputes (j : Nat) (c : CompSt) (s : Engine) :
    (setComp j c s).currentComputes = s.currentComputes := rfl

lemma setComp_currentEffects (j : Nat) (c : CompSt) (s : Engine) :
    (setComp j c s).currentEffects = s.currentEffects := rfl

lemma setComp_refId (j : Nat) (c : CompSt) (s : Engine) :
    (setComp j c s).refId = s.refId := rfl

lemma setComp_computedId (j : Nat) (c : CompSt) (s : Engine) :
    (setComp j c s).computedId = s.computedId := rfl

lemma setComp_effectId (j : Nat) (c : CompSt) (s : Engine) :
    (setComp j c s).effectId = s.effectId := rfl

lemma setEff_currentRefs (k : Nat) (e : EffSt) (s : Engine) :
    (setEff k e s).currentRefs = s.currentRefs := rfl

lemma setEff_currentComputes (k : Nat) (e : EffSt) (s : Engine) :
    (setEff k e s).currentComputes = s.currentComputes := rfl

lemma setEff_currentEffects (k : Nat) (e : EffSt) (s : Engine) :
    (setEff k e s).currentEffects = s.currentEffects := rfl

lemma setEff_refId (k : Nat) (e : EffSt) (s : Engine) :
    (setEff k e s).refId = s.refId := rfl

lemma setEff_computedId (k : Nat) (e : EffSt) (s : Engine) :
    (setEff k e s).computedId = s.computedId := rfl

lemma setEff_effectId (k : Nat) (e : EffSt) (s : Engine) :
    (setEff k e s).effectId = s.effectId := rfl

end LySignal

namespace LySignal

/-- Every successful `collect`-free evaluation grows the active registration
lists by exactly the ids it allocates: in order for leaf and derived
signals, up to permutation for effects. -/
lemma evalProg_registration (p : Prog) :
    ∀ (s : Engine) (v : Val) (s1 : Engine) (tr : List Event),
      noCollect p = true →
      evalProg p s = (.ok v, s1, tr) →
      RegTrack s s1 := by
  induction p with
  | ret w =>
    intro s v s1 tr _ h
    simp only [evalProg, Prod.mk.injEq] at h
    obtain ⟨rfl, rfl, rfl⟩ := h.2
    exact RegTrack.of_eqs rfl rfl rfl rfl rfl rfl
  | seq a b iha ihb =>
    intro s v s1 tr hnc h
    simp only [noCollect, Bool.and_eq_true] at hnc
    simp only [evalProg] at h
    rcases hA : evalProg a s with ⟨rA, sA, trA⟩
    rw [hA] at h
    cases rA with
    | error e => simp at h
    | ok w =>
      dsimp only at h
      rcases hB : evalProg b sA with ⟨rB, sB, trB⟩
      rw [hB] at h
      simp only [Prod.mk.injEq] at h
      obtain ⟨rfl, rfl, rfl⟩ := h
      have hPA := (evalProg_inv a s _ sA trA hA).1
      have hPB := (evalProg_inv b sA _ sB trB hB).1
      exact RegTrack.chain hPA.refIdLe hPA.compIdLe hPA.effIdLe
        hPB.refIdLe hPB.compIdLe hPB.effIdLe
        (iha s w sA trA hnc.1 hA) (ihb sA v sB trB hnc.2 hB)
  | readRef i =>
    intro s v s1 tr _ h
    simp only [evalProg, Prod.mk.injEq] at h
    obtain ⟨rfl, rfl, rfl⟩ := h.2
    exact RegTrack.of_eqs rfl rfl rfl rfl rfl rfl
  | readComp i =>
    intro s v s1 tr _ h
    simp only [evalProg, Prod.mk.injEq] at h
    obtain ⟨rfl, rfl, rfl⟩ := h.2
    exact RegTrack.of_eqs rfl rfl rfl rfl rfl rfl
  | writeRef i rhs ih =>
    intro s v s1 tr hnc h
    simp only [noCollect] at hnc
    simp only [evalProg] at h
    rcases hA : evalProg rhs s with ⟨rA, sA, trA⟩
    rw [hA] at h
    cases rA with
    | error e => simp at h
    | ok w =>
      dsimp only at h
      simp only [Prod.mk.injEq] at h
      obtain ⟨-, rfl, rfl⟩ := h
      have hPA := (evalProg_inv rhs s _ sA trA hA).1
      refine RegTrack.chain hPA.refIdLe hPA.compIdLe hPA.effIdLe
        (le_of_eq (refSetValue_refId i w sA).symm)
        (le_of_eq (refSetValue_computedId i w sA).symm)
        (le_of_eq (refSetValue_effectId i w sA).symm)
        (ih s w sA trA hnc hA) ?_
      exact RegTrack.of_eqs (refSetValue_currentRefs i w sA) (refSetValue_refId i w sA)
        (refSetValue_currentComputes i w sA) (refSetValue_computedId i w sA)
        (refSetValue_currentEffects i w sA) (refSetValue_effectId i w sA)
  | iteP c t e ihc iht ihe =>
    intro s v s1 tr hnc h
    simp only [noCollect, Bool.and_eq_true] at hnc
    simp only [evalProg] at h
    rcases hA : evalProg c s with ⟨rA, sA, trA⟩
    rw [hA] at h
    cases rA with
    | error er => simp at h
    | ok w =>
      dsimp only at h
      have hPA := (evalProg_inv c s _ sA trA hA).1
      by_cases hw : w = 0
      · rw [if_pos hw] at h
        rcases hB : evalProg e sA with ⟨rB, sB, trB⟩
        rw [hB] at h
        simp only [Prod.mk.injEq] at h
        obtain ⟨rfl, rfl, rfl⟩ := h
        have hPB := (evalProg_inv e sA _ sB trB hB).1
        exact RegTrack.chain hPA.refIdLe hPA.compIdLe hPA.effIdLe
          hPB.refIdLe hPB.compIdLe hPB.effIdLe
          (ihc s w sA trA hnc.1.1 hA) (ihe sA v sB trB hnc.2 hB)
      · rw [if_neg hw] at h
        rcases hB : evalProg t sA with ⟨rB, sB, trB⟩
        rw [hB] at h
        simp only [Prod.mk.injEq] at h
        obtain ⟨rfl, rfl, rfl⟩ := h
        have hPB := (evalProg_inv t sA _ sB trB hB).1
        exact RegTrack.chain hPA.refIdLe hPA.compIdLe hPA.effIdLe
          hPB.refIdLe hPB.compIdLe hPB.effIdLe
          (ihc s w sA trA hnc.1.1 hA) (iht sA v sB trB hnc.1.2 hB)
  | app1 f a ih =>
    intro s v s1 tr hnc h
    simp only [noCollect] at hnc
    simp only [evalProg] at h
    rcases hA : evalProg a s with ⟨rA, sA, trA⟩
    rw [hA] at h
    cases rA with
    | error e => simp at h
    | ok w =>
      dsimp only at h
      simp only [Prod.mk.injEq] at h
      obtain ⟨-, rfl, rfl⟩ := h
      exact ih s w sA trA hnc hA
  | emit a ih =>
    intro s v s1 tr hnc h
    simp only [noCollect] at hnc
    simp only [evalProg] at h
    rcases hA : evalProg a s with ⟨rA, sA, trA⟩
    rw [hA] at h
    cases rA with
    | error e => simp at h
    | ok w =>
      dsimp only at h
      simp only [Prod.mk.injEq] at h
      obtain ⟨-, rfl, rfl⟩ := h
      exact ih s w sA trA hnc hA
  | throwErr =>
    intro s v s1 tr _ h
    simp only [evalProg, Prod.mk.injEq] at h
    exact absurd h.1 (by simp)
  | newRef initArg ih =>
    intro s v s1 tr hnc h
    simp only [noCollect] at hnc
    simp only [evalProg] at h
    rcases hA : evalProg initArg s with ⟨rA, sA, trA⟩
    rw [hA] at h
    cases rA with
    | error e => simp at h
    | ok w =>
      dsimp only at h
      rcases hAs : assertRecursive .refK sA.recursive with _ | e <;> rw [hAs] at h <;>
        dsimp only at h
      · simp only [Prod.mk.injEq] at h
        obtain ⟨-, rfl, rfl⟩ := h
        have hPA := (evalProg_inv initArg s _ sA trA hA).1
        exact RegTrack.refPush (ih s w sA trA hnc hA) hPA.refIdLe rfl rfl rfl rfl rfl rfl
      · simp at h
  | newComp body ih =>
    intro s v s1 tr hnc h
    simp only [noCollect] at hnc
    simp only [evalProg] at h
    rcases hAs : assertRecursive .computedK s.recursive with _ | e <;> rw [hAs] at h <;>
      dsimp only at h
    · rcases hB : evalProg body { s with computedId := s.computedId + 1, recursive := Mode.computedM, currentCapture := some Capture.empty } with ⟨rB, sB, trB⟩
      rw [hB] at h
      cases rB with
      | error e => simp at h
      | ok w =>
        dsimp only at h
        simp only [Prod.mk.injEq] at h
        obtain ⟨-, rfl, rfl⟩ := h
        obtain ⟨e1, e2, e3, e4, e5, e6, e7⟩ :=
          evalProg_computedM body _ w sB trB hnc rfl hB
        refine ⟨?_, ?_, ?_⟩
        · intro lr hlr
          try dsimp only
          rw [linkAll_currentRefs, setComp_currentRefs, linkAll_refId, setComp_refId]
          try dsimp only
          rw [e4, e1]
          try dsimp only
          rw [hlr]
          simp
        · intro lc hlc
          try dsimp only
          rw [linkAll_currentComputes, setComp_currentComputes,
            linkAll_computedId, setComp_computedId]
          try dsimp only
          rw [e5, e2]
          try dsimp only
          rw [hlc]
          have hd : s.computedId + 1 - s.computedId = 1 := by omega
          rw [hd, List.range'_one]
          rfl
        · intro le hle
          refine ⟨[], ?_, ?_⟩
          · dsimp only
            rw [linkAll_currentEffects, setComp_currentEffects]
            try dsimp only
            rw [e6]
            try dsimp only
            rw [hle]
            simp
          · dsimp only
            rw [linkAll_effectId, setComp_effectId]
            try dsimp only
            rw [e3]
            try dsimp only
            simp
    · simp at h
  | newEff body ih =>
    intro s v s1 tr hnc h
    simp only [noCollect] at hnc
    simp only [evalProg] at h
    rcases hAs : assertRecursive .effectK s.recursive with _ | e <;> rw [hAs] at h <;>
      dsimp only at h
    · rcases hB : evalProg body { s with effectId := s.effectId + 1, recursive := Mode.effectM, currentCapture := some Capture.empty } with ⟨rB, sB, trB⟩
      rw [hB] at h
      cases rB with
      | error e => simp at h
      | ok w =>
        dsimp only at h
        simp only [Prod.mk.injEq] at h
        obtain ⟨-, rfl, rfl⟩ := h
        have ihB := ih _ w sB trB hnc hB
        have hPB := (evalProg_inv body _ _ sB trB hB).1
        refine ⟨?_, ?_, ?_⟩
        · intro lr hlr
          try dsimp only
          rw [linkAll_currentRefs, setEff_currentRefs, linkAll_refId, setEff_refId]
          try dsimp only
          exact ihB.1 lr hlr
        · intro lc hlc
          try dsimp only
          rw [linkAll_currentComputes, setEff_currentComputes,
            linkAll_computedId, setEff_computedId]
          try dsimp only
          exact ihB.2.1 lc hlc
        · intro le hle
          obtain ⟨lB, heB, hpB⟩ := ihB.2.2 le hle
          refine ⟨lB ++ [s.effectId], ?_, ?_⟩
          · dsimp only
            rw [linkAll_currentEffects, setEff_currentEffects]
            try dsimp only
            rw [heB]
            simp [List.append_assoc]
          · dsimp only
            rw [linkAll_effectId, setEff_effectId]
            try dsimp only
            have hge : s.effectId + 1 ≤ sB.effectId := hPB.effIdLe
            have hd : sB.effectId - s.effectId = (sB.effectId - (s.effectId + 1)) + 1 := by
              omega
            rw [hd, List.range'_succ]
            exact (List.perm_append_singleton _ _).trans (List.Perm.cons _ hpB)
    · simp at h
  | collectP body ih =>
    intro s v s1 tr hnc h
    simp [noCollect] at hnc

end LySignal

namespace LySignal

/-- C7 counterexample: `collect` does NOT restore the prior registration
target — its `finally` sets the lists to null unconditionally.  In
`collect(() => { collect(() => 0); ref(5) })` the inner collect nulls the
globals, so the leaf signal constructed afterwards in the enclosing
callback is recorded nowhere (`refId` shows it was constructed), and the
enclosing collect returns null lists instead of its own. -/
theorem C7_counterexample :
    (collect (Prog.seq (Prog.collectP (Prog.ret 0)) (Prog.newRef (Prog.ret 5)))
        initEngine).1 = .ok (0, none, none, none)
    ∧ (collect (Prog.seq (Prog.collectP (Prog.ret 0)) (Prog.newRef (Prog.ret 5)))
        initEngine).2.1.refId = 1 :=
  ⟨rfl, rfl⟩

/-- C7 (amended): `collect` unconditionally clears the registration target to
absent on exit — including exceptional exit — rather than restoring the
enclosing target (coinciding with restoration only when the prior target was
absent).  For a non-nested callback it returns the callback's result together
with the three lists of nodes constructed during the callback: leaf and
derived signals in construction order (consecutive ids from the counters),
effects up to permutation (a nested effect is pushed before its enclosing
effect finishes). -/
theorem C7_amended_collect :
    (∀ (body : Prog) (s : Engine),
      (collect body s).2.1.currentRefs = none
      ∧ (collect body s).2.1.currentComputes = none
      ∧ (collect body s).2.1.currentEffects = none)
    ∧ (∀ (body : Prog) (s : Engine) (v : Val) (s2 : Engine) (tr : List Event),
      noCollect body = true →
      evalProg body (initRegs s) = (.ok v, s2, tr) →
      ∃ le, collect body s =
          (.ok (v, some (List.range' s.refId (s2.refId - s.refId)),
                some (List.range' s.computedId (s2.computedId - s.computedId)),
                some le),
           clearRegs s2, tr)
        ∧ le.Perm (List.range' s.effectId (s2.effectId - s.effectId)))
    ∧ (∀ (body : Prog) (s : Engine) (e : Err) (s2 : Engine) (tr : List Event),
      evalProg body (initRegs s) = (.error e, s2, tr) →
      collect body s = (.error e, clearRegs s2, tr)) := by
  refine ⟨?_, ?_, ?_⟩
  · intro body s
    simp only [collect]
    rcases hB : evalProg body (initRegs s) with ⟨rB, s2, tr⟩
    cases rB <;> exact ⟨rfl, rfl, rfl⟩
  · intro body s v s2 tr hnc hB
    have hreg := evalProg_registration body _ v s2 tr hnc hB
    have hR := hreg.1 [] rfl
    have hC := hreg.2.1 [] rfl
    obtain ⟨le, hE, hpE⟩ := hreg.2.2 [] rfl
    refine ⟨le, ?_, hpE⟩
    simp only [collect]
    rw [hB]
    dsimp only
    rw [hR, hC, hE]
    rfl
  · intro body s e s2 tr hB
    simp only [collect]
    rw [hB]

/-- Witness for the amended C7: a callback constructing one leaf and one
derived signal returns exactly those, in construction order, and the
registration globals are cleared afterwards; a throwing callback propagates
the exception with the globals cleared. -/
theorem C7_amended_witness :
    ((collect (Prog.seq (Prog.newRef (Prog.ret 5)) (Prog.newComp (Prog.readRef 0)))
        initEngine).2.1.currentRefs = none)
    ∧ (noCollect (Prog.seq (Prog.newRef (Prog.ret 5)) (Prog.newComp (Prog.readRef 0))) = true
      ∧ ∃ le, collect (Prog.seq (Prog.newRef (Prog.ret 5)) (Prog.newComp (Prog.readRef 0)))
            initEngine =
          (.ok (0, some (List.range' 0 1), some (List.range' 0 1), some le),
           clearRegs (evalProg (Prog.seq (Prog.newRef (Prog.ret 5)) (Prog.newComp (Prog.readRef 0))) (initRegs initEngine)).2.1,
           [])
        ∧ le.Perm (List.range' 0 0))
    ∧ collect Prog.throwErr initEngine =
        (.error .userError,
         clearRegs (evalProg Prog.throwErr (initRegs initEngine)).2.1,
         []) :=
  ⟨(C7_amended_collect.1 (Prog.seq (Prog.newRef (Prog.ret 5))
      (Prog.newComp (Prog.readRef 0))) initEngine).1,
   ⟨by decide,
    C7_amended_collect.2.1 (Prog.seq (Prog.newRef (Prog.ret 5))
      (Prog.newComp (Prog.readRef 0))) initEngine 0
      (evalProg (Prog.seq (Prog.newRef (Prog.ret 5)) (Prog.newComp (Prog.readRef 0)))
        (initRegs initEngine)).2.1 [] (by decide) (by rfl)⟩,
   C7_amended_collect.2.2 Prog.throwErr initEngine .userError
     (evalProg Prog.throwErr (initRegs initEngine)).2.1 [] (by rfl)⟩

end LySignal

namespace LySignal


lemma commitLeaves_go (l : List Nat) :
    ∀ (q0 : List ListenerId) (s : Engine) (tr0 : List Event),
      l.foldl
        (fun acc i =>
          match acc with
          | (q, s0, tr) =>
            match refUpdate i s0 with
            | (ch, s1) =>
              (if ch then q ++ (s1.refs i).listeners else q, s1,
               tr ++ [.commitRef i ch]))
        (q0, s, tr0)
      = (q0 ++ (commitLeavesSpec l s).1, (commitLeavesSpec l s).2.1,
         tr0 ++ (commitLeavesSpec l s).2.2) := by
  induction l with
  | nil =>
    intro q0 s tr0
    simp [commitLeavesSpec]
  | cons i rest ih =>
    intro q0 s tr0
    simp only [List.foldl_cons]
    rcases hU : refUpdate i s with ⟨ch, s1⟩
    dsimp only
    rw [ih]
    simp only [commitLeavesSpec]
    rw [hU]
    rcases hS : commitLeavesSpec rest s1 with ⟨q2, s2, tr2⟩
    dsimp only
    cases ch with
    | true => simp [List.append_assoc]
    | false => simp

/-- The translated commit phase coincides with the claim's formulation. -/
lemma commitLeaves_eq_spec (l : List Nat) (s : Engine) :
    commitLeaves l s = commitLeavesSpec l s := by
  have h := commitLeaves_go l [] s []
  simp only [List.nil_append] at h
  rw [commitLeaves, h]

/-- Unfolding of one drain step when the stack top sits at the end of the
work list. -/
lemma drain_succ_concat (fuel : Nat) (q : List ListenerId) (x : ListenerId)
    (s : Engine) :
    drain (fuel + 1) (q ++ [x]) s =
      (match x with
      | ListenerId.comp j =>
        match compUpdate j s with
        | (.error e, s1, tr) => some (.error e, s1, tr)
        | (.ok ch, s1, tr) =>
          match drain fuel (if ch then q ++ (s1.comps j).listeners else q) s1 with
          | none => none
          | some (r, s2, tr2) => some (r, s2, tr ++ tr2)
      | ListenerId.eff j =>
        match effUpdate j s with
        | (.error e, s1, tr) => some (.error e, s1, tr)
        | (.ok _, s1, tr) =>
          match drain fuel q s1 with
          | none => none
          | some (r, s2, tr2) => some (r, s2, tr ++ tr2)) := by
  rw [drain]
  rw [List.getLast?_concat, List.dropLast_concat]
  cases x with
  | comp j => rfl
  | eff j => rfl

/-- The translated stack drain coincides with the claim's formulation (the
work-list array with `push`/`pop` at the end is the claim's LIFO stack read
in reverse). -/
lemma drainSpec_eq_drain :
    ∀ (fuel : Nat) (st : List ListenerId) (s : Engine),
      drainSpec fuel st s = drain fuel st.reverse s := by
  intro fuel
  induction fuel with
  | zero =>
    intro st s
    by_cases h : st = []
    · subst h
      rfl
    · have h2 : st.reverse ≠ [] := by simpa using h
      show (if st = [] then _ else _) = (if st.reverse = [] then _ else _)
      rw [if_neg h, if_neg h2]
  | succ fuel ih =>
    intro st s
    cases st with
    | nil => rfl
    | cons x rest =>
      rw [List.reverse_cons, drain_succ_concat]
      cases x with
      | comp j =>
        simp only [drainSpec]
        rcases hC : compUpdate j s with ⟨rc, s1, tr1⟩
        cases rc with
        | error e => rfl
        | ok ch =>
          dsimp only
          rw [ih]
          have hq : (if ch = true
                then (s1.comps j).listeners.reverse ++ rest else rest).reverse
              = (if ch = true
                then rest.reverse ++ (s1.comps j).listeners else rest.reverse) := by
            cases ch <;> simp
          rw [hq]
      | eff j =>
        simp only [drainSpec]
        rcases hC : effUpdate j s with ⟨rc, s1, tr1⟩
        cases rc with
        | error e => rfl
        | ok u =>
          dsimp only
          rw [ih]

/-- The translated outer loop coincides with the claim's formulation. -/
lemma flushRounds_eq_spec :
    ∀ (fuel : Nat) (s : Engine), flushRounds fuel s = flushRoundsSpec fuel s := by
  intro fuel
  induction fuel with
  | zero => intro s; rfl
  | succ fuel ih =>
    intro s
    by_cases h : s.dirtyStates = []
    · show (if s.dirtyStates = [] then _ else _) = (if s.dirtyStates = [] then _ else _)
      rw [if_pos h, if_pos h]
    · show (if s.dirtyStates = [] then _ else _) = (if s.dirtyStates = [] then _ else _)
      rw [if_neg h, if_neg h]
      dsimp only
      rw [← commitLeaves_eq_spec]
      rcases hCL : commitLeaves s.dirtyStates (clearDirty s) with ⟨q, s2, tr1⟩
      have hCL2 : commitLeaves s.dirtyStates { s with dirtyStates := [] } = (q, s2, tr1) :=
        hCL
      rw [hCL2]
      dsimp only
      rw [drainSpec_eq_drain (fuel + 1) q.reverse s2, List.reverse_reverse]
      rcases hD : drain (fuel + 1) q s2 with _ | x
      · rfl
      · obtain ⟨rr, s3, tr2⟩ := x
        cases rr with
        | error e => rfl
        | ok u =>
          dsimp only
          rw [ih]

/-- Events of the commit phase are exactly commit events. -/
lemma commitLeavesSpec_events :
    ∀ (l : List Nat) (s : Engine),
      ∀ e ∈ (commitLeavesSpec l s).2.2, ∃ i ch, e = Event.commitRef i ch := by
  intro l
  induction l with
  | nil => intro s e he; simp [commitLeavesSpec] at he
  | cons i rest ih =>
    intro s e he
    simp only [commitLeavesSpec] at he
    rcases hU : refUpdate i s with ⟨ch, s1⟩
    rw [hU] at he
    rcases hS : commitLeavesSpec rest s1 with ⟨q2, s2, tr2⟩
    rw [hS] at he
    dsimp only at he
    rcases List.mem_cons.mp he with rfl | he
    · exact ⟨i, ch, rfl⟩
    · have := ih s1 e
      rw [hS] at this
      exact this he

/-- C2: the flush algorithm.  The translated scheduler (`updateStates`)
coincides, for every fuel and state, with the claim's formulation
(`updateStatesSpec`): each round snapshots and clears the dirty set, commits
every snapshotted leaf collecting changed leaves' listeners as the work
list, drains that list as a LIFO stack in which only a changed derived
signal pushes its (refreshed) listeners, and the outer loop repeats while
the dirty set is non-empty.  Moreover within a round all commits happen in
the commit phase: the commit-phase trace consists solely of commit events,
and a drain trace never contains one — so every snapshotted leaf is
committed before any derived/effect recompute of that round begins. -/
theorem C2_flush_algorithm :
    (∀ (fuel : Nat) (s : Engine), updateStates fuel s = updateStatesSpec fuel s)
    ∧ (∀ (l : List Nat) (s : Engine),
        ∀ e ∈ (commitLeaves l s).2.2, ∃ i ch, e = Event.commitRef i ch)
    ∧ (∀ (fuel : Nat) (q : List ListenerId) (s0 : Engine) (rr : Except Err Unit)
        (s' : Engine) (tr : List Event),
        drain fuel q s0 = some (rr, s', tr) →
        ∀ e ∈ tr, ∀ i ch, e ≠ Event.commitRef i ch) := by
  refine ⟨?_, ?_, ?_⟩
  · intro fuel s
    exact flushRounds_eq_spec fuel { s with currentUpdate := false }
  · intro l s e he
    rw [commitLeaves_eq_spec] at he
    exact commitLeavesSpec_events l s e he
  · intro fuel q s0 rr s' tr h
    exact (drain_preserve fuel q s0 rr s' tr h).2.2

/-- Witness for C2: the no-commit-in-drain clause applied to a concrete
drain run on `wEngine` (which pops the effect, then the derived node). -/
theorem C2_witness :
    ∀ e ∈ (Option.getD (drain 3 [ListenerId.comp 0, ListenerId.eff 0] wEngine)
        (.ok (), wEngine, [])).2.2, ∀ i ch, e ≠ Event.commitRef i ch :=
  C2_flush_algorithm.2.2 3 [ListenerId.comp 0, ListenerId.eff 0] wEngine
    (Option.getD (drain 3 [ListenerId.comp 0, ListenerId.eff 0] wEngine)
      (.ok (), wEngine, [])).1
    (Option.getD (drain 3 [ListenerId.comp 0, ListenerId.eff 0] wEngine)
      (.ok (), wEngine, [])).2.1
    (Option.getD (drain 3 [ListenerId.comp 0, ListenerId.eff 0] wEngine)
      (.ok (), wEngine, [])).2.2
    (by rfl)

end LySignal
